import Mathlib

/-!
Verification of the plyr.fm moderation labeler core (signed append-only label
log with live distribution and batch review) against its specification.

The Rust sources are shallowly embedded: database tables become lists of row
structures, SQL queries become pure list functions, the async handlers become
state-passing functions, and the effectful collaborators (clock, signer,
broadcast channel, fallible storage) become explicit parameters.  Machine
integers (`i64`) are modelled as `Int` (no arithmetic in the embedded code
can overflow a 64-bit integer on the inputs we consider, and the source
relies on the same assumption), `f64` score values are modelled as `Rat`
(they are only ever copied and compared by the embedded code paths),
and SQL timestamps are modelled by their string representation (the code
only parses and re-formats them; no claim depends on calendar arithmetic).
-/

namespace PlyrModeration

/-! ## Labels (src/moderation/src/labels.rs) -/

/-- ATProto label, mirroring `Label` in labels.rs.  `sig` bytes are modelled
as a list of naturals below 256. -/
structure Label where
  ver : Option Int
  src : String
  uri : String
  cid : Option String
  val : String
  neg : Option Bool
  cts : String
  exp : Option String
  sig : Option (List Nat)
deriving DecidableEq, Repr

/-- Unsigned view of a label used for canonical encoding, mirroring
`UnsignedLabel` in labels.rs (all fields of `Label` except `sig`). -/
structure UnsignedLabel where
  ver : Option Int
  src : String
  uri : String
  cid : Option String
  val : String
  neg : Option Bool
  cts : String
  exp : Option String
deriving DecidableEq, Repr

/-- The unsigned field projection performed at the start of `Label::sign`. -/
def unsignedOf (l : Label) : UnsignedLabel :=
  { ver := l.ver, src := l.src, uri := l.uri, cid := l.cid, val := l.val,
    neg := l.neg, cts := l.cts, exp := l.exp }

/-- `Label::new`: fresh unsigned label; the creation timestamp comes from
the clock, passed explicitly as `now`. -/
def Label.mk_new (src uri val : String) (now : String) : Label :=
  { ver := some 1, src := src, uri := uri, cid := none, val := val,
    neg := none, cts := now, exp := none, sig := none }

/-- `Label::with_cid`. -/
def Label.withCid (l : Label) (cid : String) : Label := { l with cid := some cid }

/-- `Label::negated`. -/
def Label.negated (l : Label) : Label := { l with neg := some true }

/-! ### DAG-CBOR canonical encoding

`Label::sign` serializes the `UnsignedLabel` with `serde_ipld_dagcbor::to_vec`.
For this fixed struct that produces a definite-length CBOR map whose entries
are the present fields in declaration order (fields whose `Option` is `None`
carry `skip_serializing_if = "Option::is_none"` and are skipped entirely).
We implement that encoder concretely over byte lists. -/

/-- UTF-8 encoding of a single character as bytes (naturals below 256). -/
def utf8Char (c : Char) : List Nat :=
  let n := c.toNat
  if n < 0x80 then [n]
  else if n < 0x800 then [0xC0 + n / 64, 0x80 + n % 64]
  else if n < 0x10000 then [0xE0 + n / 4096, 0x80 + (n / 64) % 64, 0x80 + n % 64]
  else [0xF0 + n / 262144, 0x80 + (n / 4096) % 64, 0x80 + (n / 64) % 64, 0x80 + n % 64]

/-- UTF-8 encoding of a string. -/
def utf8Str (s : String) : List Nat := s.data.flatMap utf8Char

/-- CBOR header for major type `major` with argument `n`. -/
def cborHead (major n : Nat) : List Nat :=
  if n < 24 then [32 * major + n]
  else if n < 256 then [32 * major + 24, n]
  else if n < 65536 then [32 * major + 25, n / 256, n % 256]
  else if n < 4294967296 then
    [32 * major + 26, n / 16777216, (n / 65536) % 256, (n / 256) % 256, n % 256]
  else
    [32 * major + 27, n / 72057594037927936, (n / 281474976710656) % 256,
     (n / 1099511627776) % 256, (n / 4294967296) % 256, (n / 16777216) % 256,
     (n / 65536) % 256, (n / 256) % 256, n % 256]

/-- CBOR text string (major type 3). -/
def cborStr (s : String) : List Nat := cborHead 3 (utf8Str s).length ++ utf8Str s

/-- CBOR integer (major type 0 for non-negative, 1 for negative). -/
def cborInt (i : Int) : List Nat :=
  if 0 ≤ i then cborHead 0 i.toNat else cborHead 1 (-1 - i).toNat

/-- CBOR boolean. -/
def cborBool (b : Bool) : List Nat := if b then [245] else [244]

/-- The map entries the serializer emits for an `UnsignedLabel`: present
fields in declaration order, absent optional fields skipped. -/
def unsignedEntries (u : UnsignedLabel) : List (List Nat) :=
  (match u.ver with | some v => [cborStr "ver" ++ cborInt v] | none => []) ++
  [cborStr "src" ++ cborStr u.src] ++
  [cborStr "uri" ++ cborStr u.uri] ++
  (match u.cid with | some c => [cborStr "cid" ++ cborStr c] | none => []) ++
  [cborStr "val" ++ cborStr u.val] ++
  (match u.neg with | some b => [cborStr "neg" ++ cborBool b] | none => []) ++
  [cborStr "cts" ++ cborStr u.cts] ++
  (match u.exp with | some e => [cborStr "exp" ++ cborStr e] | none => [])

/-- Canonical DAG-CBOR bytes of an unsigned label: definite-length map header
followed by the encoded entries. -/
def dagCborEncode (u : UnsignedLabel) : List Nat :=
  cborHead 5 (unsignedEntries u).length ++ (unsignedEntries u).flatten

/-- The byte string that `Label::sign` signs for a given label. -/
def signInput (l : Label) : List Nat := dagCborEncode (unsignedOf l)

/-- `Label::sign`, with the secp256k1 primitive abstracted as `sigOf`
(a pure function of the canonical bytes; its output is attached verbatim). -/
def Label.signWith (l : Label) (sigOf : List Nat → List Nat) : Label :=
  { l with sig := some (sigOf (signInput l)) }

/-- Number of absent optional fields of an unsigned label. -/
def absentCount (u : UnsignedLabel) : Nat :=
  (if u.ver = none then 1 else 0) + (if u.cid = none then 1 else 0) +
  (if u.neg = none then 1 else 0) + (if u.exp = none then 1 else 0)

/-- Encoder variant following the spec's rejected alternative reading: absent
optional fields are encoded as a CBOR null placeholder (byte 246) under their
key instead of being omitted, so the map always has eight entries.  This
definition is written from the spec's words, for comparison with
`dagCborEncode`, which is written from the source. -/
def nullPlaceholderEncode (u : UnsignedLabel) : List Nat :=
  let entries : List (List Nat) :=
    [(match u.ver with | some v => cborStr "ver" ++ cborInt v | none => cborStr "ver" ++ [246]),
     cborStr "src" ++ cborStr u.src,
     cborStr "uri" ++ cborStr u.uri,
     (match u.cid with | some c => cborStr "cid" ++ cborStr c | none => cborStr "cid" ++ [246]),
     cborStr "val" ++ cborStr u.val,
     (match u.neg with | some b => cborStr "neg" ++ cborBool b | none => cborStr "neg" ++ [246]),
     cborStr "cts" ++ cborStr u.cts,
     (match u.exp with | some e => cborStr "exp" ++ cborStr e | none => cborStr "exp" ++ [246])]
  cborHead 5 entries.length ++ entries.flatten

/-! ## Database rows and state (src/moderation/src/db.rs) -/

/-- Stored label row, mirroring `LabelRow`. -/
structure LabelRow where
  seq : Int
  src : String
  uri : String
  cid : Option String
  val : String
  neg : Bool
  cts : String
  exp : Option String
  sig : List Nat
deriving DecidableEq, Repr

/-- `LabelRow::to_label`; timestamp re-formatting is modelled as the identity
on the string representation. -/
def LabelRow.toLabel (r : LabelRow) : Label :=
  { ver := some 1, src := r.src, uri := r.uri, cid := r.cid, val := r.val,
    neg := if r.neg then some true else none, cts := r.cts, exp := r.exp,
    sig := some r.sig }

/-- Copyright match info, mirroring `CopyrightMatch` (`f64` score as `Rat`). -/
structure CopyrightMatch where
  title : String
  artist : String
  score : Rat
deriving DecidableEq, Repr

/-- Resolution reason, mirroring `ResolutionReason`. -/
inductive ResolutionReason where
  | originalArtist | licensed | fingerprintNoise | coverVersion | contentDeleted | other
deriving DecidableEq, Repr

/-- The string stored in the database for a reason: the lowercased Rust
`Debug` rendering (`format!("{:?}", r).to_lowercase()`). -/
def ResolutionReason.dbString : ResolutionReason → String
  | .originalArtist => "originalartist"
  | .licensed => "licensed"
  | .fingerprintNoise => "fingerprintnoise"
  | .coverVersion => "coverversion"
  | .contentDeleted => "contentdeleted"
  | .other => "other"

/-- Label context payload, mirroring `LabelContext`. -/
structure LabelContext where
  trackId : Option Int
  trackTitle : Option String
  artistHandle : Option String
  artistDid : Option String
  highestScore : Option Rat
  matchList : Option (List CopyrightMatch)
  resolutionReason : Option ResolutionReason
  resolutionNotes : Option String
deriving DecidableEq, Repr

/-- A row of the `label_context` table (`uri` is UNIQUE; the reason is stored
as text). -/
structure CtxRow where
  uri : String
  trackId : Option Int
  trackTitle : Option String
  artistHandle : Option String
  artistDid : Option String
  highestScore : Option Rat
  matchList : Option (List CopyrightMatch)
  resolutionReason : Option String
  resolutionNotes : Option String
deriving DecidableEq, Repr

/-- A row of the `review_batches` table. -/
structure BatchRow where
  id : String
  createdAt : String
  expiresAt : Option String
  status : String
  createdBy : Option String
deriving DecidableEq, Repr

/-- A row of the `batch_flags` table (UNIQUE on `(batchId, uri)`). -/
structure FlagRow where
  batchId : String
  uri : String
  reviewed : Bool
  reviewedAt : Option String
  decision : Option String
deriving DecidableEq, Repr

/-- The database state: the `labels` log (with its BIGSERIAL `seq` counter),
the `label_context` side table, and the review-batch tables. -/
structure DbState where
  nextSeq : Int
  labels : List LabelRow
  contexts : List CtxRow
  batches : List BatchRow
  flags : List FlagRow
deriving DecidableEq, Repr

/-! ## LabelStore operations (src/moderation/src/db.rs) -/

/-- `LabelDb::store_label`: appends the row and returns the BIGSERIAL `seq`
assigned to it (timestamp parsing modelled as the identity on strings). -/
def storeLabel (db : DbState) (l : Label) : Int × DbState :=
  let row : LabelRow :=
    { seq := db.nextSeq, src := l.src, uri := l.uri, cid := l.cid, val := l.val,
      neg := l.neg.getD false, cts := l.cts, exp := l.exp, sig := l.sig.getD [] }
  (db.nextSeq, { db with nextSeq := db.nextSeq + 1, labels := db.labels ++ [row] })

/-- Merge used by the `ON CONFLICT (uri) DO UPDATE` arm of
`LabelDb::store_context`: each column becomes
`COALESCE(EXCLUDED.column, label_context.column)`, i.e. the newly supplied
value when present, otherwise the stored one. -/
def mergeCtxRow (old : CtxRow) (ctx : LabelContext) : CtxRow :=
  { uri := old.uri,
    trackId := ctx.trackId.or old.trackId,
    trackTitle := ctx.trackTitle.or old.trackTitle,
    artistHandle := ctx.artistHandle.or old.artistHandle,
    artistDid := ctx.artistDid.or old.artistDid,
    highestScore := ctx.highestScore.or old.highestScore,
    matchList := ctx.matchList.or old.matchList,
    resolutionReason := (ctx.resolutionReason.map ResolutionReason.dbString).or old.resolutionReason,
    resolutionNotes := ctx.resolutionNotes.or old.resolutionNotes }

/-- `LabelDb::store_context`: insert a fresh row for the URI or merge into the
existing one. -/
def storeContext (db : DbState) (uri : String) (ctx : LabelContext) : DbState :=
  if db.contexts.any (fun r => r.uri = uri) then
    { db with contexts := db.contexts.map (fun r => if r.uri = uri then mergeCtxRow r ctx else r) }
  else
    { db with contexts := db.contexts ++
        [{ uri := uri, trackId := ctx.trackId, trackTitle := ctx.trackTitle,
           artistHandle := ctx.artistHandle, artistDid := ctx.artistDid,
           highestScore := ctx.highestScore, matchList := ctx.matchList,
           resolutionReason := ctx.resolutionReason.map ResolutionReason.dbString,
           resolutionNotes := ctx.resolutionNotes }] }

/-- `LabelDb::store_resolution`: upsert overwriting only the resolution
columns (`resolution_reason = EXCLUDED.resolution_reason`, likewise notes). -/
def storeResolution (db : DbState) (uri : String) (reason : ResolutionReason)
    (notes : Option String) : DbState :=
  if db.contexts.any (fun r => r.uri = uri) then
    { db with contexts := db.contexts.map (fun r =>
        if r.uri = uri then
          { r with resolutionReason := some reason.dbString, resolutionNotes := notes }
        else r) }
  else
    { db with contexts := db.contexts ++
        [{ uri := uri, trackId := none, trackTitle := none, artistHandle := none,
           artistDid := none, highestScore := none, matchList := none,
           resolutionReason := some reason.dbString, resolutionNotes := notes }] }

/-- Ordering used by `ORDER BY seq ASC`. -/
def seqLE (a b : LabelRow) : Prop := a.seq ≤ b.seq

instance : DecidableRel seqLE := fun a b => inferInstanceAs (Decidable (a.seq ≤ b.seq))

/-- `ORDER BY seq ASC` over a set of rows. -/
def orderBySeq (rows : List LabelRow) : List LabelRow := rows.insertionSort seqLE

/-- `LabelDb::get_labels_since`: ascending labels with `seq > cursor`, capped
by `limit`. -/
def getLabelsSince (db : DbState) (cursor : Int) (limit : Int) : List LabelRow :=
  (orderBySeq (db.labels.filter (fun r => cursor < r.seq))).take limit.toNat

/-- `LabelDb::get_latest_seq`: `MAX(seq)`, or 0 when the table is empty. -/
def getLatestSeq (db : DbState) : Int := (db.labels.map (fun r => r.seq)).foldr max 0

/-- SQL `LIKE` matching over character lists: `%` matches any substring,
`_` any single character, everything else is literal. -/
def likeMatch : List Char → List Char → Bool
  | [], [] => true
  | [], _ :: _ => false
  | '%' :: ps, [] => likeMatch ps []
  | '%' :: ps, c :: s => likeMatch ps (c :: s) || likeMatch ('%' :: ps) s
  | '_' :: _, [] => false
  | '_' :: ps, _ :: s => likeMatch ps s
  | _ :: _, [] => false
  | p :: ps, c :: s => (p = c) && likeMatch ps s
termination_by p s => (s.length, p.length)

/-- One URI pattern condition of `LabelDb::query_labels`: patterns containing
`*` become `uri LIKE` with each `*` replaced by `%` (Rust
`p.replace('*', "%")`), the rest use equality. -/
def uriPatternMatch (pat uri : String) : Bool :=
  if pat.data.contains '*' then
    likeMatch (pat.data.map (fun c => if c = '*' then '%' else c)) uri.data
  else pat = uri

/-- Rust `str::parse::<i64>()`: optional sign, at least one ASCII digit,
64-bit range check. -/
def parseDigits (cs : List Char) : Option Nat :=
  if cs.isEmpty then none
  else if cs.all (fun c => c.isDigit) then
    some (cs.foldl (fun a c => 10 * a + (c.toNat - 48)) 0)
  else none

/-- Parse a string as an `i64`, returning `none` on failure. -/
def parseI64 (s : String) : Option Int :=
  let signAndDigits : Int × List Char :=
    match s.data with
    | '+' :: rest => (1, rest)
    | '-' :: rest => (-1, rest)
    | cs => (1, cs)
  match parseDigits signAndDigits.2 with
  | none => none
  | some n =>
      let v : Int := signAndDigits.1 * (n : Int)
      if -(2 ^ 63) ≤ v ∧ v ≤ 2 ^ 63 - 1 then some v else none

/-- The WHERE clause of `LabelDb::query_labels` applied to one row: URI
patterns OR-ed (absent when the pattern list is empty), optional source
filter, and `seq > cursor` when a cursor was supplied. -/
def queryCond (patterns : List String) (sources : Option (List String))
    (cursorVal : Option Int) (r : LabelRow) : Bool :=
  (patterns.isEmpty || patterns.any (fun p => uriPatternMatch p r.uri)) &&
  (match sources with
   | some srcs => srcs.isEmpty || srcs.contains r.src
   | none => true) &&
  (match cursorVal with
   | some c => decide (c < r.seq)
   | none => true)

/-- `LabelDb::query_labels`: fetch `limit + 1` matching rows ascending by
`seq`; when the extra row exists, drop it and return the last remaining
sequence as the continuation cursor.  An unparseable cursor string falls back
to 0 (`c.parse().unwrap_or(0)`). -/
def queryLabels (db : DbState) (patterns : List String) (sources : Option (List String))
    (cursor : Option String) (limit : Int) : List LabelRow × Option String :=
  let cursorVal := cursor.map (fun c => (parseI64 c).getD 0)
  let rows := (orderBySeq (db.labels.filter (queryCond patterns sources cursorVal))).take
    (limit + 1).toNat
  if limit.toNat < rows.length then
    let page := rows.dropLast
    (page, page.getLast?.map (fun r => toString r.seq))
  else
    (rows, none)

/-- `LabelDb::get_active_labels`: candidates with a `copyright-violation`
asserting label and no negating one (`SELECT DISTINCT` modelled as first
occurrences in table order). -/
def getActiveLabels (db : DbState) (uris : List String) : List String :=
  if uris.isEmpty then []
  else
    let negated := ((db.labels.filter (fun r =>
      r.val = "copyright-violation" && r.neg && uris.contains r.uri)).map
        (fun r => r.uri)).dedup
    let active := ((db.labels.filter (fun r =>
      r.val = "copyright-violation" && !r.neg && uris.contains r.uri)).map
        (fun r => r.uri)).dedup
    active.filter (fun u => !negated.contains u)

/-- Existence of a stored `copyright-violation` label for a target with the
given negation flag — the only facts `get_active_labels` may depend on. -/
def hasCvLabel (db : DbState) (u : String) (b : Bool) : Prop :=
  ∃ r ∈ db.labels, r.uri = u ∧ r.val = "copyright-violation" ∧ r.neg = b

/-! ## Review batches (src/moderation/src/db.rs) -/

/-- One member insertion of `LabelDb::create_batch`:
`INSERT ... ON CONFLICT (batch_id, uri) DO NOTHING`. -/
def createFlagStep (id : String) (fs : List FlagRow) (u : String) : List FlagRow :=
  if fs.any (fun f => f.batchId = id && f.uri = u) then fs
  else fs ++ [{ batchId := id, uri := u, reviewed := false, reviewedAt := none,
                decision := none }]

/-- `LabelDb::create_batch`: insert the batch row, then one flag per URI with
`ON CONFLICT (batch_id, uri) DO NOTHING`. -/
def createBatch (db : DbState) (id : String) (uris : List String)
    (createdBy : Option String) (now : String) : BatchRow × DbState :=
  let batch : BatchRow :=
    { id := id, createdAt := now, expiresAt := none, status := "pending",
      createdBy := createdBy }
  let flags := uris.foldl (createFlagStep id) db.flags
  (batch, { db with batches := db.batches ++ [batch], flags := flags })

/-- `LabelDb::get_batch`. -/
def getBatch (db : DbState) (id : String) : Option BatchRow :=
  db.batches.find? (fun b => b.id = id)

/-- `LabelDb::update_batch_status`. -/
def updateBatchStatus (db : DbState) (id status : String) : DbState :=
  { db with batches := db.batches.map (fun b =>
      if b.id = id then { b with status := status } else b) }

/-- `LabelDb::mark_flag_reviewed`. -/
def markFlagReviewed (db : DbState) (batchId uri decision : String) (now : String) : DbState :=
  { db with flags := db.flags.map (fun f =>
      if f.batchId = batchId && f.uri = uri then
        { f with reviewed := true, reviewedAt := some now, decision := some decision }
      else f) }

/-- `LabelDb::get_batch_pending_uris`. -/
def getBatchPendingUris (db : DbState) (batchId : String) : List String :=
  (db.flags.filter (fun f => f.batchId = batchId && !f.reviewed)).map (fun f => f.uri)

/-! ## Handler environment and application state -/

/-- Error taxonomy, mirroring `LabelError` in labels.rs. -/
inductive LabelError where
  | serialization
  | invalidKey (msg : String)
  | database
deriving DecidableEq, Repr

/-- Error taxonomy, mirroring `AppError` in state.rs. -/
inductive AppError where
  | audd (msg : String)
  | labelerNotConfigured
  | badRequest (msg : String)
  | notFound (msg : String)
  | labelErr (e : LabelError)
  | database
  | io
deriving DecidableEq, Repr

/-- The effectful collaborators of the handlers, passed explicitly: presence
of the optional db/signer/broadcast channel, the labeler DID, the clock, the
signing primitive (which may fail), and whether fallible stores succeed. -/
structure ModEnv where
  hasDb : Bool
  hasSigner : Bool
  hasTx : Bool
  did : String
  now : String
  sign : Label → Except LabelError Label
  storeOk : Bool
  contextStoreOk : Bool

/-- Mutable application state: the database plus the multiset of events sent
on the broadcast channel so far. -/
structure ModState where
  db : DbState
  broadcasts : List (Int × Label)

/-! ## Emission (src/moderation/src/handlers.rs, emit_label) -/

/-- Context payload of an emit request, mirrorring `EmitLabelContext`. -/
structure EmitLabelContext where
  trackId : Option Int
  trackTitle : Option String
  artistHandle : Option String
  artistDid : Option String
  highestScore : Option Rat
  matchList : Option (List CopyrightMatch)
deriving DecidableEq, Repr

/-- `normalize_score` (`f64` arithmetic modelled over `Rat`). -/
def normalizeScore (s : Rat) : Rat := if 1 < s then s / 100 else s

/-- Emit request, mirroring `EmitLabelRequest` (`val` defaults are applied by
serde before the handler runs, so the field is already populated here). -/
structure EmitLabelRequest where
  uri : String
  val : String
  cid : Option String
  neg : Bool
  context : Option EmitLabelContext
deriving DecidableEq, Repr

/-- The `LabelContext` built by `emit_label` from the request context. -/
def ctxOfEmit (c : EmitLabelContext) : LabelContext :=
  { trackId := c.trackId, trackTitle := c.trackTitle, artistHandle := c.artistHandle,
    artistDid := c.artistDid, highestScore := c.highestScore.map normalizeScore,
    matchList := c.matchList.map (fun ms => ms.map (fun m => { m with score := normalizeScore m.score })),
    resolutionReason := none, resolutionNotes := none }

/-- The unsigned label `emit_label` builds from a request before signing:
`Label::new`, then `with_cid` when a CID is supplied, then `negated` when
requested. -/
def builtLabel (env : ModEnv) (req : EmitLabelRequest) : Label :=
  let l0 := Label.mk_new env.did req.uri req.val env.now
  let l1 := match req.cid with
    | some c => l0.withCid c
    | none => l0
  if req.neg then l1.negated else l1

/-- `emit_label`: sign, store, best-effort context write, then fire-and-forget
broadcast.  The broadcast send result is discarded by the source
(`let _ = tx.send(...)`), so the state records the attempted send and the
returned value never depends on its delivery. -/
def emitLabel (env : ModEnv) (st : ModState) (req : EmitLabelRequest) :
    Except AppError (Int × Label) × ModState :=
  if ¬env.hasDb ∨ ¬env.hasSigner then (.error .labelerNotConfigured, st) else
  match env.sign (builtLabel env req) with
  | .error e => (.error (.labelErr e), st)
  | .ok label =>
    if ¬env.storeOk then (.error .database, st)
    else
      let sdb := storeLabel st.db label
      let db2 := match req.context with
        | some ctx => if env.contextStoreOk then storeContext sdb.2 req.uri (ctxOfEmit ctx) else sdb.2
        | none => sdb.2
      let bcasts := if env.hasTx then st.broadcasts ++ [(sdb.1, label)] else st.broadcasts
      (.ok (sdb.1, label), ⟨db2, bcasts⟩)

/-! ## Subscription (src/services/moderation/src/xrpc.rs, handle_subscribe) -/

/-- An item received from the broadcast stream: a label event, or a lag
notification (`Err(Lagged)`) for a consumer that fell behind. -/
inductive LiveEvent where
  | ok (seq : Int) (label : Label)
  | lagged
deriving DecidableEq, Repr

/-- One `{seq, labels}` message sent to the subscriber. -/
structure SubMessage where
  seq : Int
  labels : List Label
deriving DecidableEq, Repr

/-- The live phase of `handle_subscribe`: deliver each event whose sequence
exceeds `last_seq`, updating `last_seq`; skip lagged notifications. -/
def liveLoop : Int → List LiveEvent → List SubMessage
  | _, [] => []
  | lastSeq, .ok s l :: rest =>
      if lastSeq < s then ⟨s, [l]⟩ :: liveLoop s rest else liveLoop lastSeq rest
  | lastSeq, .lagged :: rest => liveLoop lastSeq rest

/-- The backfill read of `handle_subscribe`: `get_labels_since(c, 1000)`. -/
def backfillRows (db : DbState) (c : Int) : List LabelRow := getLabelsSince db c 1000

/-- Messages of the backfill phase, one per row. -/
def backfillMsgs (db : DbState) (c : Int) : List SubMessage :=
  (backfillRows db c).map (fun r => ⟨r.seq, [r.toLabel]⟩)

/-- `last_seen` after the backfill phase: the last backfilled sequence, or
the cursor itself when nothing was backfilled. -/
def backfillStart (db : DbState) (c : Int) : Int :=
  (((backfillRows db c).getLast?).map (fun r => r.seq)).getD c

/-- `handle_subscribe` as a delivery trace: with a cursor, backfill messages
followed by the filtered live feed; without one, the live feed filtered from
the store's latest sequence.  A failed socket send ends the session, so an
actual session delivers a prefix of this trace. -/
def handleSubscribe (db : DbState) (cursor : Option Int) (events : List LiveEvent) :
    List SubMessage :=
  match cursor with
  | some c => backfillMsgs db c ++ liveLoop (backfillStart db c) events
  | none => liveLoop (getLatestSeq db) events

/-! ## Batch review (src/services/moderation/src/review.rs, submit_review) -/

/-- A single review decision, mirroring `ReviewDecision`. -/
structure ReviewDecision where
  uri : String
  decision : String
deriving DecidableEq, Repr

/-- The decision loop of `submit_review`: every decision marks its flag
reviewed; `clear` additionally signs and stores a negating label, records the
resolution, and broadcasts; `defer`, `confirm` and unrecognized strings only
log.  Returns the updated state and the resolved count (or the error that
aborted the loop; already-applied decisions stay applied). -/
def submitReviewLoop (env : ModEnv) (batchId : String) :
    ModState → List ReviewDecision → ModState × Except AppError Nat
  | st, [] => (st, .ok 0)
  | st, d :: rest =>
    let st1 : ModState :=
      { st with db := markFlagReviewed st.db batchId d.uri d.decision env.now }
    if d.decision = "clear" then
      match env.sign ((Label.mk_new env.did d.uri "copyright-violation" env.now).negated) with
      | .error e => (st1, .error (.labelErr e))
      | .ok label =>
          let sdb := storeLabel st1.db label
          let db2 := storeResolution sdb.2 d.uri .fingerprintNoise (some "batch review: cleared")
          let st2 : ModState :=
            ⟨db2, if env.hasTx then st1.broadcasts ++ [(sdb.1, label)] else st1.broadcasts⟩
          let res := submitReviewLoop env batchId st2 rest
          (res.1, res.2.map (fun n => n + 1))
    else
      submitReviewLoop env batchId st1 rest

/-- `submit_review`: look up the batch, process every decision, then mark the
batch completed iff no unreviewed flag remains.  Database writes other than
signing are modelled as reliable; a signing failure aborts with partial
progress kept, as in the source. -/
def submitReview (env : ModEnv) (st : ModState) (batchId : String)
    (decisions : List ReviewDecision) : Except AppError (Nat × String) × ModState :=
  if ¬env.hasDb ∨ ¬env.hasSigner then (.error .labelerNotConfigured, st) else
  match getBatch st.db batchId with
  | none => (.error (.notFound "batch not found"), st)
  | some _ =>
    let res := submitReviewLoop env batchId st decisions
    match res.2 with
    | .error e => (.error e, res.1)
    | .ok n =>
        let st2 :=
          if (getBatchPendingUris res.1.db batchId).isEmpty then
            { res.1 with db := updateBatchStatus res.1.db batchId "completed" }
          else res.1
        let nd := decisions.length
        (.ok (n, s!"processed {nd} decisions, resolved {n} flags"), st2)

/-- The per-row update performed by `mark_flag_reviewed` for one decision. -/
def markRow (batchId now : String) (d : ReviewDecision) (f : FlagRow) : FlagRow :=
  if f.batchId = batchId && f.uri = d.uri then
    { f with reviewed := true, reviewedAt := some now, decision := some d.decision }
  else f

/-- The unsigned negating label `submit_review` builds for a `clear`
decision. -/
def clearLabel (env : ModEnv) (uri : String) : Label :=
  (Label.mk_new env.did uri "copyright-violation" env.now).negated

/-- The sequence-independent content of a stored label row. -/
def rowProj (r : LabelRow) : String × String × String × Bool × String × List Nat :=
  (r.src, r.uri, r.val, r.neg, r.cts, r.sig)

/-- Content of the row a `clear` decision appends: a negating
`copyright-violation` label for the target, signed over its canonical
bytes. -/
def clearRowProj (env : ModEnv) (sigOf : List Nat → List Nat) (uri : String) :
    String × String × String × Bool × String × List Nat :=
  (env.did, uri, "copyright-violation", true, env.now,
    sigOf (signInput (clearLabel env uri)))

/-! ## Query handler (src/services/moderation/src/xrpc.rs, query_labels) -/

/-- Query parameters, mirroring `QueryLabelsParams`. -/
structure QueryLabelsParams where
  uriPatterns : String
  sources : Option String
  cursor : Option String
  limit : Option Int
deriving DecidableEq, Repr

/-- Split a character list at commas (Rust `str::split(',')`: an empty input
yields one empty piece). -/
def splitComma : List Char → List (List Char)
  | [] => [[]]
  | c :: rest =>
    match splitComma rest with
    | [] => [[c]]
    | h :: t => if c = ',' then [] :: h :: t else (c :: h) :: t

/-- Rust `str::trim`: strip leading and trailing whitespace. -/
def trimChars (cs : List Char) : List Char :=
  ((cs.dropWhile Char.isWhitespace).reverse.dropWhile Char.isWhitespace).reverse

/-- Comma-splitting with trim, as the handler parses `uri_patterns` and
`sources`. -/
def splitTrim (s : String) : List String :=
  (splitComma s.data).map (fun cs => String.mk (trimChars cs))

/-- Rust `i64::clamp(1, 250)`. -/
def clampLimit (x : Int) : Int := if x < 1 then 1 else if 250 < x then 250 else x

/-- The XRPC `query_labels` handler: split the patterns, clamp the limit
(default 50) and delegate to `LabelDb::query_labels`. -/
def xrpcQueryLabels (db : DbState) (p : QueryLabelsParams) :
    Option String × List Label :=
  let pats := splitTrim p.uriPatterns
  let srcs := p.sources.map splitTrim
  let lim := clampLimit (p.limit.getD 50)
  let rc := queryLabels db pats srcs p.cursor lim
  (rc.2, rc.1.map LabelRow.toLabel)

/-! ## Batch creation endpoint -/

/-- Modelled from the spec: the HTTP batch-creation endpoint
(BatchCoordinator `create_batch`) is not under src/ — `LabelDb::create_batch`
has no caller there.  Per §4.5 of the spec it resolves the target set,
generates an identifier, "Persists the batch and one unreviewed member per
target. Fails if the resulting member set is empty."  The resolved member
set and generated identifier are taken as inputs here; the empty set is
rejected before any state mutation. -/
def createBatchEndpoint (db : DbState) (id : String) (targets : List String)
    (createdBy : Option String) (now : String) : Except AppError (BatchRow × DbState) :=
  if targets.isEmpty then .error (.badRequest "no flags to review")
  else .ok (createBatch db id targets createdBy now)

/-! ## Sample inputs used by witnesses -/

/-- A concrete signed-label sample: fields as `emit_label` would build them. -/
def sampleLabelA : Label :=
  { ver := some 1, src := "did:plc:mod", uri := "at://did:plc:u/fm.plyr.track/a1",
    cid := none, val := "copyright-violation", neg := none,
    cts := "2025-01-01T00:00:00.000Z", exp := none, sig := none }

/-- The same unsigned fields as `sampleLabelA` but with a signature attached. -/
def sampleLabelB : Label := { sampleLabelA with sig := some [7, 7, 7] }

/-- An empty label context payload. -/
def emptyCtx : LabelContext :=
  { trackId := none, trackTitle := none, artistHandle := none, artistDid := none,
    highestScore := none, matchList := none, resolutionReason := none,
    resolutionNotes := none }

/-- A database holding a single context row whose title is already present. -/
def ctxDbA : DbState :=
  { nextSeq := 1, labels := [], batches := [], flags := [],
    contexts := [{ uri := "at://t", trackId := none, trackTitle := some "A",
                   artistHandle := none, artistDid := none, highestScore := none,
                   matchList := none, resolutionReason := none, resolutionNotes := none }] }


/-- Count of batch members for one (batch, uri) key. -/
def flagCount (id : String) (fs : List FlagRow) (u : String) : Nat :=
  (fs.filter (fun f => f.batchId = id && f.uri = u)).length
/-- A fully configured environment whose signer always succeeds. -/
def c3Env : ModEnv :=
  { hasDb := true, hasSigner := true, hasTx := true, did := "did:plc:mod",
    now := "2025-01-01T00:00:00.000Z",
    sign := fun l => .ok (l.signWith (fun _ => [9])),
    storeOk := true, contextStoreOk := true }
/-- An empty application state. -/
def c3St : ModState :=
  { db := { nextSeq := 1, labels := [], contexts := [], batches := [], flags := [] },
    broadcasts := [] }
/-- A plain emit request without CID, negation or context. -/
def c3Req : EmitLabelRequest :=
  { uri := "at://u", val := "copyright-violation", cid := none, neg := false,
    context := none }
/-- A row of the five-row sample log. -/
def qRow (i : Int) : LabelRow :=
  { seq := i, src := "d", uri := "u", cid := none, val := "v", neg := false,
    cts := "t", exp := none, sig := [] }
/-- A five-row log for pagination checks. -/
def dbFive : DbState :=
  { nextSeq := 6, labels := [qRow 1, qRow 2, qRow 3, qRow 4, qRow 5],
    contexts := [], batches := [], flags := [] }
/-- Query parameters requesting limit 2 over the five-row log. -/
def qpW : QueryLabelsParams :=
  { uriPatterns := "u", sources := none, cursor := none, limit := some 2 }
/-- Live events observed by the sample session: sequence 11 arrives once,
together with a stale replay of sequence 7 and a lag notification. -/
def sampleEvents : List LiveEvent :=
  [.ok 7 (qRow 7).toLabel, .lagged, .ok 11 (qRow 11).toLabel]
/-- A ten-row log used by the subscription witnesses. -/
def dbTen : DbState :=
  { nextSeq := 11,
    labels := [qRow 1, qRow 2, qRow 3, qRow 4, qRow 5, qRow 6, qRow 7, qRow 8,
               qRow 9, qRow 10],
    contexts := [], batches := [], flags := [] }
/-- The log row carrying sequence `i + 1`. -/
def bigRow (i : Nat) : LabelRow := qRow ((i : Int) + 1)
/-- A log of 1001 labels, sequences 1 through 1001. -/
def bigDb : DbState :=
  { nextSeq := 1002, labels := (List.range 1001).map bigRow,
    contexts := [], batches := [], flags := [] }
/-- Environment for the review witness: configured, signer succeeds. -/
def c7Env : ModEnv :=
  { hasDb := true, hasSigner := true, hasTx := true, did := "did:plc:mod",
    now := "2025-02-02T00:00:00.000Z",
    sign := fun l => .ok (l.signWith (fun _ => [3])),
    storeOk := true, contextStoreOk := true }
/-- The pending batch row of the review witness. -/
def c7Batch : BatchRow :=
  { id := "b1", createdAt := "t0", expiresAt := none, status := "pending",
    createdBy := none }
/-- State with one pending batch holding members A and B. -/
def c7St : ModState :=
  { db := { nextSeq := 1, labels := [], contexts := [], batches := [c7Batch],
            flags := [{ batchId := "b1", uri := "A", reviewed := false,
                        reviewedAt := none, decision := none },
                      { batchId := "b1", uri := "B", reviewed := false,
                        reviewedAt := none, decision := none }] },
    broadcasts := [] }
/-- Decisions submitted in the witness: clear A, unknown string for B. -/
def c7Decs : List ReviewDecision :=
  [{ uri := "A", decision := "clear" }, { uri := "B", decision := "bogus" }]
/-- A log where a negation for target `A` was stored before the assertion. -/
def negFirstDb : DbState :=
  { nextSeq := 3,
    labels := [{ seq := 1, src := "d", uri := "A", cid := none,
                 val := "copyright-violation", neg := true, cts := "t1", exp := none, sig := [] },
               { seq := 2, src := "d", uri := "A", cid := none,
                 val := "copyright-violation", neg := false, cts := "t2", exp := none, sig := [] }],
    contexts := [], batches := [], flags := [] }
/-! ## Proofs -/

/-- The three-byte field keys each encode to four CBOR bytes. -/
lemma cborStr_key_length :
    (cborStr "ver").length = 4 ∧ (cborStr "cid").length = 4 ∧
    (cborStr "neg").length = 4 ∧ (cborStr "exp").length = 4 := by
  refine ⟨?_, ?_, ?_, ?_⟩ <;> rfl

/-- Encoding absent optionals as null placeholders always produces exactly
five extra bytes per absent field compared to the source encoder. -/
lemma nullPlaceholderEncode_length (u : UnsignedLabel) :
    (nullPlaceholderEncode u).length = (dagCborEncode u).length + 5 * absentCount u := by
  obtain ⟨hver, hcid, hneg, hexp⟩ := cborStr_key_length
  rcases u with ⟨ver, src, uri, cid, val, neg, cts, exp⟩
  rcases ver with _ | v <;> rcases cid with _ | c <;> rcases neg with _ | b <;>
    rcases exp with _ | e <;>
  · simp only [nullPlaceholderEncode, dagCborEncode, unsignedEntries, absentCount,
      List.flatten, List.append_nil, List.nil_append, List.cons_append,
      List.length_append, List.length_cons, List.length_nil, cborHead]
    simp_all
    all_goals omega

/-- C5: the canonical byte string `Label::sign` signs is a deterministic
function of the unsigned fields only — two labels with equal unsigned fields
(whatever their `sig` fields) have byte-identical canonical input, so the
`sig` field is never part of the encoded bytes — and every absent optional
field (ver, cid, neg, exp) is omitted from the encoding entirely: whenever at
least one optional field is absent the source encoding differs from the
null-placeholder encoding, while with all optional fields present the two
encodings agree. -/
theorem C5_canonical_encoding_deterministic :
    (∀ l₁ l₂ : Label, unsignedOf l₁ = unsignedOf l₂ → signInput l₁ = signInput l₂) ∧
    (∀ u : UnsignedLabel, 0 < absentCount u → dagCborEncode u ≠ nullPlaceholderEncode u) ∧
    (∀ u : UnsignedLabel, absentCount u = 0 → dagCborEncode u = nullPlaceholderEncode u) := by
  refine ⟨?_, ?_, ?_⟩
  · intro l₁ l₂ h
    simp only [signInput, h]
  · intro u h heq
    have hlen := nullPlaceholderEncode_length u
    rw [← heq] at hlen
    omega
  · intro u h
    rcases u with ⟨ver, src, uri, cid, val, neg, cts, exp⟩
    rcases ver with _ | v <;> rcases cid with _ | c <;> rcases neg with _ | b <;>
      rcases exp with _ | e <;>
      simp_all [absentCount, nullPlaceholderEncode, dagCborEncode, unsignedEntries]

/-- Witness for C5 at concrete inputs: two labels that differ only in their
signature share the canonical bytes, and a label with absent optional fields
encodes differently from its null-placeholder form. -/
theorem C5_witness :
    (unsignedOf sampleLabelA = unsignedOf sampleLabelB ∧
      signInput sampleLabelA = signInput sampleLabelB) ∧
    (0 < absentCount (unsignedOf sampleLabelA) ∧
      dagCborEncode (unsignedOf sampleLabelA) ≠
        nullPlaceholderEncode (unsignedOf sampleLabelA)) := by
  refine ⟨⟨by decide, C5_canonical_encoding_deterministic.1 _ _ (by decide)⟩,
    by decide, C5_canonical_encoding_deterministic.2.1 _ (by decide)⟩


/-- C9 counterexample: the context row for `at://t` already stores
`track_title = 'A'`; a later `store_context` supplying `track_title = 'B'`
replaces the present stored value, so a later write does clobber a present
field. -/
theorem C9_counterexample :
    (∀ r ∈ ctxDbA.contexts, r.uri = "at://t" → r.trackTitle = some "A") ∧
    (∀ r ∈ (storeContext ctxDbA "at://t"
        { emptyCtx with trackTitle := some "B" }).contexts,
      r.uri = "at://t" → r.trackTitle ≠ some "A") := by
  constructor
  · decide
  · decide

/-- C9 (amended): for a URI with a stored context row, a later `store_context`
call overwrites exactly the fields for which the later write supplies a value
and keeps the stored value for every field the later write omits — in
particular a field absent from the later write never erases a stored value —
and rows for other URIs are untouched. -/
theorem C9_store_context_merge (db : DbState) (uri : String) (ctx : LabelContext)
    (old : CtxRow) (hmem : old ∈ db.contexts) (huri : old.uri = uri) :
    (mergeCtxRow old ctx ∈ (storeContext db uri ctx).contexts ∧
      (∀ r ∈ db.contexts, r.uri ≠ uri → r ∈ (storeContext db uri ctx).contexts)) ∧
    ((ctx.trackTitle = none → (mergeCtxRow old ctx).trackTitle = old.trackTitle) ∧
      (∀ v, ctx.trackTitle = some v → (mergeCtxRow old ctx).trackTitle = some v)) ∧
    ((ctx.trackId = none → (mergeCtxRow old ctx).trackId = old.trackId) ∧
      (∀ v, ctx.trackId = some v → (mergeCtxRow old ctx).trackId = some v)) ∧
    ((ctx.artistHandle = none → (mergeCtxRow old ctx).artistHandle = old.artistHandle) ∧
      (∀ v, ctx.artistHandle = some v → (mergeCtxRow old ctx).artistHandle = some v)) ∧
    ((ctx.artistDid = none → (mergeCtxRow old ctx).artistDid = old.artistDid) ∧
      (∀ v, ctx.artistDid = some v → (mergeCtxRow old ctx).artistDid = some v)) ∧
    ((ctx.highestScore = none → (mergeCtxRow old ctx).highestScore = old.highestScore) ∧
      (∀ v, ctx.highestScore = some v → (mergeCtxRow old ctx).highestScore = some v)) ∧
    ((ctx.matchList = none → (mergeCtxRow old ctx).matchList = old.matchList) ∧
      (∀ v, ctx.matchList = some v → (mergeCtxRow old ctx).matchList = some v)) ∧
    ((ctx.resolutionReason = none →
        (mergeCtxRow old ctx).resolutionReason = old.resolutionReason) ∧
      (∀ v, ctx.resolutionReason = some v →
        (mergeCtxRow old ctx).resolutionReason = some v.dbString)) ∧
    ((ctx.resolutionNotes = none → (mergeCtxRow old ctx).resolutionNotes = old.resolutionNotes) ∧
      (∀ v, ctx.resolutionNotes = some v → (mergeCtxRow old ctx).resolutionNotes = some v)) := by
  have hexists : db.contexts.any (fun r => r.uri = uri) = true := by
    rw [List.any_eq_true]
    exact ⟨old, hmem, by simp [huri]⟩
  refine ⟨⟨?_, ?_⟩, ?_, ?_, ?_, ?_, ?_, ?_, ?_, ?_⟩
  · unfold storeContext
    rw [if_pos hexists]
    simp only [List.mem_map]
    exact ⟨old, hmem, by simp [huri]⟩
  · intro r hr hne
    unfold storeContext
    rw [if_pos hexists]
    simp only [List.mem_map]
    exact ⟨r, hr, by simp [hne]⟩
  all_goals
    constructor
    · intro h
      simp [mergeCtxRow, h]
    · intro v h
      simp [mergeCtxRow, h]

/-- Witness for C9 at a concrete input: merging a write that supplies a title
but omits notes into the stored row keeps the stored notes and overwrites the
title. -/
theorem C9_witness :
    mergeCtxRow
        { uri := "at://t", trackId := none, trackTitle := some "A",
          artistHandle := none, artistDid := none, highestScore := none,
          matchList := none, resolutionReason := none,
          resolutionNotes := some "kept" } { emptyCtx with trackTitle := some "B" } ∈
      (storeContext
        { nextSeq := 1, labels := [], batches := [], flags := [],
          contexts := [{ uri := "at://t", trackId := none, trackTitle := some "A",
                         artistHandle := none, artistDid := none, highestScore := none,
                         matchList := none, resolutionReason := none,
                         resolutionNotes := some "kept" }] } "at://t"
        { emptyCtx with trackTitle := some "B" }).contexts := by
  exact (C9_store_context_merge _ "at://t" _ _ (by decide) (by decide)).1.1

/-- C10: an unparseable cursor string is silently treated as 0 rather than an
error: `query_labels` is total in the cursor and, when every stored sequence
is positive (as BIGSERIAL guarantees), a query with an unparseable cursor
returns exactly what a query without any cursor returns — the matching labels
from the beginning of the log. -/
theorem C10_unparseable_cursor (db : DbState) (patterns : List String)
    (sources : Option (List String)) (c : String) (limit : Int)
    (hbad : parseI64 c = none) (hpos : ∀ r ∈ db.labels, 0 < r.seq) :
    queryLabels db patterns sources (some c) limit =
      queryLabels db patterns sources none limit := by
  have hfilter : db.labels.filter (queryCond patterns sources (some ((parseI64 c).getD 0))) =
      db.labels.filter (queryCond patterns sources none) := by
    apply List.filter_congr
    intro r hr
    rw [hbad]
    simp [queryCond, hpos r hr]
  unfold queryLabels
  simp only [Option.map_some', Option.map_none']
  rw [hfilter]

/-- Witness for C10 at a concrete input: the cursor string `"abc"` does not
parse, and the query behaves as if no cursor had been supplied. -/
theorem C10_witness :
    parseI64 "abc" = none ∧
    queryLabels
        { nextSeq := 3,
          labels := [{ seq := 1, src := "d", uri := "u", cid := none, val := "v",
                       neg := false, cts := "t", exp := none, sig := [] },
                     { seq := 2, src := "d", uri := "u", cid := none, val := "v",
                       neg := false, cts := "t", exp := none, sig := [] }],
          contexts := [], batches := [], flags := [] } ["u"] none (some "abc") 50 =
      queryLabels
        { nextSeq := 3,
          labels := [{ seq := 1, src := "d", uri := "u", cid := none, val := "v",
                       neg := false, cts := "t", exp := none, sig := [] },
                     { seq := 2, src := "d", uri := "u", cid := none, val := "v",
                       neg := false, cts := "t", exp := none, sig := [] }],
          contexts := [], batches := [], flags := [] } ["u"] none none 50 := by
  refine ⟨by decide, C10_unparseable_cursor _ _ _ _ _ (by decide) (by decide)⟩

/-- Membership characterization of `get_active_labels`: a target is returned
iff it is a candidate with at least one asserting and no negating stored
`copyright-violation` label. -/
lemma mem_getActiveLabels (db : DbState) (uris : List String) (u : String) :
    u ∈ getActiveLabels db uris ↔
      u ∈ uris ∧ hasCvLabel db u false ∧ ¬ hasCvLabel db u true := by
  cases uris with
  | nil => simp [getActiveLabels, hasCvLabel]
  | cons v vs =>
    simp [getActiveLabels, hasCvLabel, List.mem_filter]
    constructor
    · rintro ⟨⟨a, ⟨ha, ⟨hval, hneg⟩, hin⟩, hau⟩, hall⟩
      subst hau
      refine ⟨hin, ⟨a, ha, rfl, hval, hneg⟩, ?_⟩
      intro x hx hxu hxval
      cases hxe : x.neg with
      | false => rfl
      | true =>
          exact absurd hxu (hall x hx hxval hxe (by rw [hxu]; exact hin))
    · rintro ⟨hu, ⟨r, hr, hru, hval, hneg⟩, hall⟩
      refine ⟨⟨r, ⟨hr, ⟨hval, hneg⟩, by rw [hru]; exact hu⟩, hru⟩, ?_⟩
      intro x hx hxval hxneg _ hxu
      have hthis := hall x hx hxu hxval
      rw [hxneg] at hthis
      simp at hthis

/-- C4: `get_active_labels` returns exactly the candidate targets with at
least one asserting and zero negating `copyright-violation` labels; the
returned set depends only on which (target, value, neg) labels exist in the
log — two logs agreeing on those existence facts agree on the result,
whatever the order or multiplicity of their rows — and for a single
candidate, any stored negating label forces the empty result. -/
theorem C4_active_labels_resolution :
    (∀ (db : DbState) (uris : List String) (u : String),
      u ∈ getActiveLabels db uris ↔
        u ∈ uris ∧ hasCvLabel db u false ∧ ¬ hasCvLabel db u true) ∧
    (∀ (db₁ db₂ : DbState) (uris : List String) (u : String),
      (∀ v b, hasCvLabel db₁ v b ↔ hasCvLabel db₂ v b) →
      (u ∈ getActiveLabels db₁ uris ↔ u ∈ getActiveLabels db₂ uris)) ∧
    (∀ (db : DbState) (a : String),
      hasCvLabel db a true → getActiveLabels db [a] = []) := by
  refine ⟨mem_getActiveLabels, ?_, ?_⟩
  · intro db₁ db₂ uris u hsame
    rw [mem_getActiveLabels, mem_getActiveLabels, hsame u false, hsame u true]
  · intro db a hneg
    rw [List.eq_nil_iff_forall_not_mem]
    intro x hx
    rw [mem_getActiveLabels] at hx
    obtain ⟨hxa, _, hnone⟩ := hx
    rw [List.mem_singleton] at hxa
    exact hnone (hxa ▸ hneg)


/-- Witness for C4 at a concrete input: with a negation stored before the
assertion, the candidate is still resolved and the active set is empty. -/
theorem C4_witness :
    hasCvLabel negFirstDb "A" true ∧ getActiveLabels negFirstDb ["A"] = [] := by
  have h := C4_active_labels_resolution.2.2 negFirstDb "A"
  have hneg : hasCvLabel negFirstDb "A" true := by
    refine ⟨{ seq := 1, src := "d", uri := "A", cid := none,
              val := "copyright-violation", neg := true, cts := "t1", exp := none, sig := [] },
      ?_, rfl, rfl, rfl⟩
    simp [negFirstDb]
  exact ⟨hneg, h hneg⟩

/-- C3: `emit_label` is atomic around its failure points — a signing failure
returns the error with the state untouched (no label stored, no sequence
allocated, nothing broadcast); a storage failure returns the error with
nothing broadcast and no label stored; on success the broadcast carries
exactly the sequence number the store returned and is recorded only then;
and the emission result never depends on the broadcast channel (an absent
channel — the ignored-send case — yields the same returned value). -/
theorem C3_emit_label_atomicity (env : ModEnv) (st : ModState) (req : EmitLabelRequest)
    (hdb : env.hasDb = true) (hsig : env.hasSigner = true) :
    (∀ e, env.sign (builtLabel env req) = .error e →
      emitLabel env st req = (.error (.labelErr e), st)) ∧
    (∀ label, env.sign (builtLabel env req) = .ok label → env.storeOk = false →
      emitLabel env st req = (.error .database, st)) ∧
    (∀ label, env.sign (builtLabel env req) = .ok label → env.storeOk = true →
      (emitLabel env st req).1 = .ok (st.db.nextSeq, label) ∧
      (emitLabel env st req).2.db.nextSeq = st.db.nextSeq + 1 ∧
      (emitLabel env st req).2.db.labels = st.db.labels ++
        [{ seq := st.db.nextSeq, src := label.src, uri := label.uri, cid := label.cid,
           val := label.val, neg := label.neg.getD false, cts := label.cts,
           exp := label.exp, sig := label.sig.getD [] }] ∧
      (emitLabel env st req).2.broadcasts = st.broadcasts ++
        (if env.hasTx then [(st.db.nextSeq, label)] else [])) ∧
    (∀ b, (emitLabel { env with hasTx := b } st req).1 = (emitLabel env st req).1) := by
  refine ⟨?_, ?_, ?_, ?_⟩
  · intro e he
    simp [emitLabel, hdb, hsig, he]
  · intro label hl hs
    simp [emitLabel, hdb, hsig, hl, hs]
  · intro label hl hs
    cases hctx : req.context with
    | none =>
      refine ⟨?_, ?_, ?_, ?_⟩ <;>
        simp [emitLabel, hdb, hsig, hl, hs, hctx, storeLabel] <;>
        try (split <;> simp)
    | some c =>
      cases hcs : env.contextStoreOk <;>
        refine ⟨?_, ?_, ?_, ?_⟩ <;>
          simp [emitLabel, hdb, hsig, hl, hs, hctx, hcs, storeLabel, storeContext] <;>
          try (split <;> simp)
  · intro b
    have hb : builtLabel { env with hasTx := b } req = builtLabel env req := rfl
    unfold emitLabel
    rw [hb]
    dsimp only
    simp only [hdb, hsig]
    cases hres : env.sign (builtLabel env req) <;>
      simp only [hres] <;>
      cases hsok : env.storeOk <;>
      simp




/-- Witness for C3 at a concrete input: a successful emission returns the
stored sequence and broadcasts exactly that sequence with the signed label. -/
theorem C3_witness :
    (emitLabel c3Env c3St c3Req).1 =
      .ok (c3St.db.nextSeq, (builtLabel c3Env c3Req).signWith (fun _ => [9])) ∧
    (emitLabel c3Env c3St c3Req).2.broadcasts =
      c3St.broadcasts ++
        [(c3St.db.nextSeq, (builtLabel c3Env c3Req).signWith (fun _ => [9]))] := by
  have h := (C3_emit_label_atomicity c3Env c3St c3Req rfl rfl).2.2.1
    ((builtLabel c3Env c3Req).signWith (fun _ => [9])) rfl rfl
  refine ⟨h.1, ?_⟩
  rw [h.2.2.2]
  rfl


/-- The membership check of `createFlagStep` tests exactly `flagCount ≥ 1`. -/
lemma createFlagStep_any (id : String) (fs : List FlagRow) (u : String) :
    (fs.any (fun f => f.batchId = id && f.uri = u)) = true ↔ 0 < flagCount id fs u := by
  rw [List.any_eq_true]
  unfold flagCount
  rw [List.length_pos_iff_exists_mem]
  constructor
  · rintro ⟨f, hf, hc⟩
    exact ⟨f, List.mem_filter.mpr ⟨hf, hc⟩⟩
  · rintro ⟨f, hf⟩
    obtain ⟨h1, h2⟩ := List.mem_filter.mp hf
    exact ⟨f, h1, h2⟩

/-- Effect of one member insertion on a key's count: an existing key is left
alone, a fresh key reaches count one, other keys are untouched. -/
lemma flagCount_createFlagStep (id : String) (fs : List FlagRow) (v u : String)
    (hinv : ∀ w, flagCount id fs w ≤ 1) :
    flagCount id (createFlagStep id fs v) u =
      if u = v then 1 else flagCount id fs u := by
  unfold createFlagStep
  by_cases hany : (fs.any (fun f => f.batchId = id && f.uri = v)) = true
  · rw [if_pos hany]
    have hv := (createFlagStep_any id fs v).mp hany
    by_cases huv : u = v
    · subst huv
      rw [if_pos rfl]
      have h1 := hinv u
      omega
    · rw [if_neg huv]
  · rw [if_neg hany]
    have hv : flagCount id fs v = 0 := by
      by_contra hne
      exact hany ((createFlagStep_any id fs v).mpr (by omega))
    unfold flagCount at *
    by_cases huv : u = v
    · subst huv
      rw [if_pos rfl, List.filter_append, List.length_append]
      simp [hv]
    · rw [if_neg huv, List.filter_append, List.length_append]
      simp [Ne.symm huv]

/-- Invariant preservation: one insertion keeps every key's count at most 1. -/
lemma flagCount_createFlagStep_le (id : String) (fs : List FlagRow) (v : String)
    (hinv : ∀ w, flagCount id fs w ≤ 1) :
    ∀ w, flagCount id (createFlagStep id fs v) w ≤ 1 := by
  intro w
  rw [flagCount_createFlagStep id fs v w hinv]
  split
  · omega
  · exact hinv w

/-- The member-insertion fold gives every URI of the list count one and
leaves other keys' counts unchanged. -/
lemma flagCount_foldl (id : String) :
    ∀ (uris : List String) (fs : List FlagRow), (∀ w, flagCount id fs w ≤ 1) →
      ∀ u, flagCount id (uris.foldl (createFlagStep id) fs) u =
        if u ∈ uris then 1 else flagCount id fs u := by
  intro uris
  induction uris with
  | nil => intro fs hinv u; simp
  | cons v rest ih =>
    intro fs hinv u
    rw [List.foldl_cons]
    rw [ih (createFlagStep id fs v) (flagCount_createFlagStep_le id fs v hinv) u]
    by_cases hmem : u ∈ rest
    · simp [hmem]
    · rw [if_neg hmem]
      rw [flagCount_createFlagStep id fs v u hinv]
      by_cases huv : u = v
      · subst huv
        simp
      · rw [if_neg huv, if_neg (by simp [huv, hmem])]

/-- Rows produced by the fold: each is either an original row or a fresh
unreviewed member of this batch. -/
lemma mem_foldl_createFlagStep (id : String) :
    ∀ (uris : List String) (fs : List FlagRow) (f : FlagRow),
      f ∈ uris.foldl (createFlagStep id) fs →
      f ∈ fs ∨ (f.batchId = id ∧ f.reviewed = false ∧ f.reviewedAt = none ∧ f.decision = none) := by
  intro uris
  induction uris with
  | nil => intro fs f hf; exact Or.inl hf
  | cons v rest ih =>
    intro fs f hf
    rw [List.foldl_cons] at hf
    rcases ih (createFlagStep id fs v) f hf with h | h
    · unfold createFlagStep at h
      split at h
      · exact Or.inl h
      · rcases List.mem_append.mp h with h2 | h2
        · exact Or.inl h2
        · rw [List.mem_singleton] at h2
          subst h2
          exact Or.inr ⟨rfl, rfl, rfl, rfl⟩
    · exact Or.inr h

/-- Original rows survive the member-insertion fold. -/
lemma subset_foldl_createFlagStep (id : String) :
    ∀ (uris : List String) (fs : List FlagRow) (f : FlagRow),
      f ∈ fs → f ∈ uris.foldl (createFlagStep id) fs := by
  intro uris
  induction uris with
  | nil => intro fs f hf; exact hf
  | cons v rest ih =>
    intro fs f hf
    rw [List.foldl_cons]
    apply ih
    unfold createFlagStep
    split
    · exact hf
    · exact List.mem_append_left _ hf

/-- C8: the batch-creation endpoint rejects an empty member set without
persisting anything, and for a non-empty target set persists the pending
batch row together with exactly one unreviewed member per distinct target
(duplicate targets collapse to one member), leaving all other tables and
pre-existing flags untouched. -/
theorem C8_create_batch_members (db : DbState) (id : String) (targets : List String)
    (createdBy : Option String) (now : String)
    (hfresh : ∀ f ∈ db.flags, f.batchId ≠ id) :
    (targets = [] →
      createBatchEndpoint db id targets createdBy now =
        .error (.badRequest "no flags to review")) ∧
    (targets ≠ [] → ∃ batch db2,
      createBatchEndpoint db id targets createdBy now = .ok (batch, db2) ∧
      batch.id = id ∧ batch.status = "pending" ∧ batch.createdBy = createdBy ∧
      db2.batches = db.batches ++ [batch] ∧
      db2.labels = db.labels ∧ db2.contexts = db.contexts ∧
      db2.nextSeq = db.nextSeq ∧
      (∀ u, flagCount id db2.flags u = if u ∈ targets then 1 else 0) ∧
      (∀ f ∈ db2.flags, f.batchId = id →
        f.reviewed = false ∧ f.reviewedAt = none ∧ f.decision = none) ∧
      (∀ f ∈ db.flags, f ∈ db2.flags)) := by
  have hcnt0 : ∀ u, flagCount id db.flags u = 0 := by
    intro u
    unfold flagCount
    rw [List.length_eq_zero]
    rw [List.filter_eq_nil_iff]
    intro f hf
    simp [hfresh f hf]
  constructor
  · intro he
    subst he
    rfl
  · intro hne
    refine ⟨(createBatch db id targets createdBy now).1,
      (createBatch db id targets createdBy now).2,
      ?_, rfl, rfl, rfl, rfl, rfl, rfl, rfl, ?_, ?_, ?_⟩
    · unfold createBatchEndpoint
      rw [if_neg (by simpa using hne)]
    · intro u
      have h := flagCount_foldl id targets db.flags (fun w => by rw [hcnt0 w]; omega) u
      unfold createBatch
      dsimp only
      rw [h, hcnt0 u]
    · intro f hf hid
      rcases mem_foldl_createFlagStep id targets db.flags f hf with h | h
      · exact absurd hid (hfresh f h)
      · exact h.2
    · intro f hf
      exact subset_foldl_createFlagStep id targets db.flags f hf

/-- Witness for C8 at concrete inputs: an empty target set is rejected, and a
duplicate-containing set yields one unreviewed member per distinct target. -/
theorem C8_witness :
    (createBatchEndpoint
        { nextSeq := 1, labels := [], contexts := [], batches := [], flags := [] }
        "b1" [] none "t" = .error (.badRequest "no flags to review")) ∧
    (∃ batch db2,
      createBatchEndpoint
        { nextSeq := 1, labels := [], contexts := [], batches := [], flags := [] }
        "b1" ["A", "B", "A"] none "t" = .ok (batch, db2) ∧
      flagCount "b1" db2.flags "A" = 1 ∧ flagCount "b1" db2.flags "B" = 1 ∧
      flagCount "b1" db2.flags "C" = 0) := by
  constructor
  · exact (C8_create_batch_members _ "b1" [] none "t" (by intro f hf; cases hf)).1 rfl
  · obtain ⟨batch, db2, heq, -, -, -, -, -, -, -, hcnt, -, -⟩ :=
      (C8_create_batch_members
        { nextSeq := 1, labels := [], contexts := [], batches := [], flags := [] }
        "b1" ["A", "B", "A"] none "t" (by intro f hf; cases hf)).2 (by simp)
    refine ⟨batch, db2, heq, ?_, ?_, ?_⟩
    · rw [hcnt "A"]; simp
    · rw [hcnt "B"]; simp
    · rw [hcnt "C"]; simp

/-- Sorting is the identity on a table whose rows are already in strictly
increasing sequence order. -/
lemma orderBySeq_eq_of_pairwise {rows : List LabelRow}
    (h : rows.Pairwise (fun a b => a.seq < b.seq)) : orderBySeq rows = rows :=
  List.Sorted.insertionSort_eq (h.imp (fun hab => le_of_lt hab))

/-- C6: with the handler's limit clamped into [1, 250] (50 when absent), a
query returns at most `limit` matching rows, strictly ascending by sequence,
each strictly beyond a parseable supplied cursor; the continuation cursor is
`none` exactly when no matching label exists beyond the page, and otherwise
is the sequence of the last returned row (with the page exactly full). -/
theorem C6_query_limit_cursor (db : DbState) (p : QueryLabelsParams)
    (L : Int) (matching page : List LabelRow) (next : Option String)
    (hsorted : db.labels.Pairwise (fun a b => a.seq < b.seq))
    (hL : L = clampLimit (p.limit.getD 50))
    (hmatch : matching = db.labels.filter
        (queryCond (splitTrim p.uriPatterns) (p.sources.map splitTrim)
          (p.cursor.map (fun c => (parseI64 c).getD 0))))
    (hpage : (page, next) = queryLabels db (splitTrim p.uriPatterns)
        (p.sources.map splitTrim) p.cursor L) :
    (1 ≤ L ∧ L ≤ 250 ∧ (p.limit = none → L = 50) ∧
      (∀ x, p.limit = some x → 1 ≤ x → x ≤ 250 → L = x)) ∧
    xrpcQueryLabels db p = (next, page.map LabelRow.toLabel) ∧
    page.length ≤ L.toNat ∧
    (page.map (fun r => r.seq)).Pairwise (· < ·) ∧
    (∀ r ∈ page, ∀ c n, p.cursor = some c → parseI64 c = some n → n < r.seq) ∧
    (next = none ↔ matching.length ≤ L.toNat) ∧
    (∀ s, next = some s → page.length = L.toNat ∧
      ∃ h : page ≠ [], s = toString (page.getLast h).seq) := by
  have hL1 : 1 ≤ L := by
    rw [hL]; unfold clampLimit; split_ifs <;> omega
  have hL250 : L ≤ 250 := by
    rw [hL]; unfold clampLimit; split_ifs <;> omega
  have hmsort : matching.Pairwise (fun a b => a.seq < b.seq) := by
    rw [hmatch]; exact hsorted.filter _
  have hq : queryLabels db (splitTrim p.uriPatterns) (p.sources.map splitTrim) p.cursor L =
      (if L.toNat < (matching.take (L + 1).toNat).length then
        ((matching.take (L + 1).toNat).dropLast,
          ((matching.take (L + 1).toNat).dropLast.getLast?).map (fun r => toString r.seq))
      else (matching.take (L + 1).toNat, none)) := by
    unfold queryLabels
    dsimp only
    rw [← hmatch, orderBySeq_eq_of_pairwise hmsort]
  have htake1 : (L + 1).toNat = L.toNat + 1 := by omega
  have hcase : (matching.length ≤ L.toNat ∧ page = matching ∧ next = none) ∨
      (L.toNat < matching.length ∧ page.length = L.toNat ∧
        ∃ hpne : page ≠ [], next = some (toString (page.getLast hpne).seq)) := by
    rcases le_or_lt matching.length L.toNat with hle | hlt
    · left
      have hrows : matching.take (L + 1).toNat = matching :=
        List.take_of_length_le (by omega)
      rw [hq, hrows, if_neg (by omega)] at hpage
      rw [Prod.mk.injEq] at hpage
      exact ⟨hle, hpage.1, hpage.2⟩
    · right
      have hrlen : (matching.take (L + 1).toNat).length = L.toNat + 1 := by
        rw [List.length_take, htake1]
        omega
      rw [hq, if_pos (by omega)] at hpage
      rw [Prod.mk.injEq] at hpage
      have hplen : page.length = L.toNat := by
        rw [hpage.1, List.length_dropLast, hrlen]
        omega
      have hpne : page ≠ [] := by
        rw [← List.length_pos_iff_ne_nil, hplen]
        omega
      refine ⟨hlt, hplen, hpne, ?_⟩
      rw [hpage.2, ← hpage.1, List.getLast?_eq_getLast page hpne, Option.map_some']
  have hpsub : List.Sublist page matching := by
    rcases hcase with ⟨-, hpg, -⟩ | ⟨-, -, -⟩
    · rw [hpg]
    · have h1 : List.Sublist (matching.take (L + 1).toNat) matching := List.take_sublist _ _
      rcases le_or_lt matching.length L.toNat with hle | hlt
      · have hrows : matching.take (L + 1).toNat = matching :=
          List.take_of_length_le (by omega)
        rw [hq, hrows, if_neg (by omega), Prod.mk.injEq] at hpage
        rw [hpage.1]
      · rw [hq, if_pos (by rw [List.length_take, htake1]; omega), Prod.mk.injEq] at hpage
        rw [hpage.1]
        exact List.Sublist.trans (List.dropLast_sublist _) h1
  have hppair : page.Pairwise (fun a b => a.seq < b.seq) := hmsort.sublist hpsub
  refine ⟨⟨hL1, hL250, ?_, ?_⟩, ?_, ?_, ?_, ?_, ?_, ?_⟩
  · intro hnone
    rw [hL, hnone]
    rfl
  · intro x hx h1 h2
    rw [hL, hx]
    unfold clampLimit
    simp only [Option.getD_some]
    split_ifs <;> omega
  · have hx : xrpcQueryLabels db p =
        ((queryLabels db (splitTrim p.uriPatterns) (p.sources.map splitTrim) p.cursor
            (clampLimit (p.limit.getD 50))).2,
          (queryLabels db (splitTrim p.uriPatterns) (p.sources.map splitTrim) p.cursor
            (clampLimit (p.limit.getD 50))).1.map LabelRow.toLabel) := rfl
    rw [hx, ← hL, ← hpage]
  · rcases hcase with ⟨hle, hpg, -⟩ | ⟨-, hplen, -⟩
    · rw [hpg]; exact hle
    · omega
  · exact List.pairwise_map.mpr hppair
  · intro r hr c n hc hn
    have hrm : r ∈ matching := hpsub.subset hr
    rw [hmatch, List.mem_filter] at hrm
    have hcond := hrm.2
    unfold queryCond at hcond
    rw [hc] at hcond
    simp only [Option.map_some', hn, Option.getD_some, Bool.and_eq_true,
      decide_eq_true_eq] at hcond
    exact hcond.2
  · rcases hcase with ⟨hle, -, hnone⟩ | ⟨hlt, -, hpne, hnext⟩
    · rw [hnone]
      simp [hle]
    · rw [hnext]
      simp only [reduceCtorEq, false_iff, not_le]
      exact hlt
  · intro s hs
    rcases hcase with ⟨-, -, hnone⟩ | ⟨-, hplen, hpne, hnext⟩
    · rw [hnone] at hs
      cases hs
    · rw [hnext] at hs
      injection hs with hs
      exact ⟨hplen, hpne, hs.symm⟩




/-- Witness for C6 at a concrete input: limit 2 over five matches returns an
ascending page and a non-null continuation cursor. -/
theorem C6_witness :
    (([qRow 1, qRow 2].map (fun r => r.seq)).Pairwise (· < ·)) ∧
    ((some "2" : Option String) = none ↔
      (dbFive.labels.filter (queryCond (splitTrim "u") none none)).length ≤
        (2 : Int).toNat) := by
  have h := C6_query_limit_cursor dbFive qpW 2
    (dbFive.labels.filter (queryCond (splitTrim "u") none none))
    [qRow 1, qRow 2] (some "2") (by decide) (by decide) (by decide) (by decide)
  exact ⟨h.2.2.2.1, h.2.2.2.2.2.1⟩

/-- Every message the live loop delivers has a sequence strictly above the
`last_seen` value the loop started from. -/
lemma liveLoop_mem_gt :
    ∀ (events : List LiveEvent) (lastSeq : Int),
      ∀ m ∈ liveLoop lastSeq events, lastSeq < m.seq := by
  intro events
  induction events with
  | nil => intro lastSeq m hm; cases hm
  | cons e rest ih =>
    intro lastSeq m hm
    cases e with
    | ok s l =>
      rw [liveLoop] at hm
      split at hm
      · rcases List.mem_cons.mp hm with h | h
        · subst h
          assumption
        · exact lt_trans (by assumption) (ih s m h)
      · exact ih lastSeq m hm
    | lagged =>
      rw [liveLoop] at hm
      exact ih lastSeq m hm

/-- The live loop delivers strictly increasing sequence numbers. -/
lemma liveLoop_pairwise :
    ∀ (events : List LiveEvent) (lastSeq : Int),
      (liveLoop lastSeq events).Pairwise (fun a b => a.seq < b.seq) := by
  intro events
  induction events with
  | nil => intro lastSeq; exact List.Pairwise.nil
  | cons e rest ih =>
    intro lastSeq
    cases e with
    | ok s l =>
      rw [liveLoop]
      split
      · exact List.Pairwise.cons (fun m hm => liveLoop_mem_gt rest s m hm) (ih s)
      · exact ih lastSeq
    | lagged =>
      rw [liveLoop]
      exact ih lastSeq

/-- In a strictly ascending row list, every row's sequence is bounded by the
last row's. -/
lemma seq_le_getLast :
    ∀ (rows : List LabelRow), rows.Pairwise (fun a b => a.seq < b.seq) →
      ∀ r ∈ rows, ∀ g, rows.getLast? = some g → r.seq ≤ g.seq := by
  intro rows
  induction rows with
  | nil => intro _ r hr; cases hr
  | cons a t ih =>
    intro hp r hr g hg
    cases t with
    | nil =>
      rw [List.getLast?_singleton] at hg
      injection hg with hg
      rcases List.mem_singleton.mp hr with h
      subst h
      subst hg
      exact le_refl _
    | cons b t2 =>
      rw [List.getLast?_cons_cons] at hg
      have hpt : (b :: t2).Pairwise (fun a b => a.seq < b.seq) := hp.of_cons
      rcases List.mem_cons.mp hr with h | h
      · subst h
        have hgmem : g ∈ b :: t2 := by
          have := List.getLast?_eq_getLast (b :: t2) (by simp) ▸ hg
          injection this with h2
          rw [← h2]
          exact List.getLast_mem _
        exact le_of_lt ((List.pairwise_cons.mp hp).1 g hgmem)
      · exact ih hpt r h g hg

/-- Under the log's sorted-unique-sequence invariant the backfill rows are the
first 1000 stored labels beyond the cursor, strictly ascending and all beyond
the cursor. -/
lemma backfillRows_spec (db : DbState) (c : Int)
    (hsorted : db.labels.Pairwise (fun a b => a.seq < b.seq)) :
    backfillRows db c = (db.labels.filter (fun r => decide (c < r.seq))).take 1000 ∧
    (backfillRows db c).Pairwise (fun a b => a.seq < b.seq) ∧
    (∀ r ∈ backfillRows db c, c < r.seq) := by
  have hfsort : (db.labels.filter (fun r => decide (c < r.seq))).Pairwise
      (fun a b => a.seq < b.seq) := hsorted.filter _
  have heq : backfillRows db c =
      (db.labels.filter (fun r => decide (c < r.seq))).take 1000 := by
    unfold backfillRows getLabelsSince
    rw [orderBySeq_eq_of_pairwise hfsort]
    rfl
  refine ⟨heq, ?_, ?_⟩
  · rw [heq]
    exact hfsort.sublist (List.take_sublist _ _)
  · intro r hr
    rw [heq] at hr
    have := List.mem_filter.mp ((List.take_subset _ _) hr)
    exact of_decide_eq_true this.2

/-- C1: across a whole subscriber session — backfill followed by the live
phase — the delivered sequence numbers are strictly increasing (hence no
sequence is ever delivered twice and delivery order is ascending), because a
live event is delivered only when its sequence exceeds the session's
`last_seen`, which is updated on each delivery. -/
theorem C1_session_strictly_increasing (db : DbState) (cursor : Option Int)
    (events : List LiveEvent)
    (hsorted : db.labels.Pairwise (fun a b => a.seq < b.seq)) :
    ((handleSubscribe db cursor events).map (fun m => m.seq)).Pairwise (· < ·) ∧
    ((handleSubscribe db cursor events).map (fun m => m.seq)).Nodup := by
  have hmain : (handleSubscribe db cursor events).Pairwise (fun a b => a.seq < b.seq) := by
    cases cursor with
    | none =>
      unfold handleSubscribe
      exact liveLoop_pairwise events (getLatestSeq db)
    | some c =>
      obtain ⟨-, hbs, hbc⟩ := backfillRows_spec db c hsorted
      unfold handleSubscribe
      rw [List.pairwise_append]
      refine ⟨?_, liveLoop_pairwise events (backfillStart db c), ?_⟩
      · unfold backfillMsgs
        rw [List.pairwise_map]
        exact hbs
      · intro m1 hm1 m2 hm2
        unfold backfillMsgs at hm1
        rw [List.mem_map] at hm1
        obtain ⟨r, hr, hrm⟩ := hm1
        have h2 : backfillStart db c < m2.seq := liveLoop_mem_gt events _ m2 hm2
        have h1 : r.seq ≤ backfillStart db c := by
          unfold backfillStart
          cases hlast : (backfillRows db c).getLast? with
          | none =>
            rw [List.getLast?_eq_none_iff] at hlast
            rw [hlast] at hr
            cases hr
          | some g =>
            rw [Option.map_some', Option.getD_some]
            exact seq_le_getLast _ hbs r hr g hlast
        rw [← hrm]
        exact lt_of_le_of_lt h1 h2
  have hseq : ((handleSubscribe db cursor events).map (fun m => m.seq)).Pairwise (· < ·) :=
    List.pairwise_map.mpr hmain
  exact ⟨hseq, hseq.imp (fun h => ne_of_lt h)⟩



/-- Witness for C1 at a concrete input: a session with cursor 5 over a ten-row
log and a live feed carrying a stale event, a lag and sequence 11 delivers
strictly increasing sequence numbers with no duplicates. -/
theorem C1_witness :
    ((handleSubscribe dbTen (some 5) sampleEvents).map (fun m => m.seq)).Pairwise (· < ·) ∧
    ((handleSubscribe dbTen (some 5) sampleEvents).map (fun m => m.seq)).Nodup :=
  C1_session_strictly_increasing dbTen (some 5) sampleEvents (by decide)

/-- C2 (amended): with a starting cursor, a session delivers — before any
live event — the first 1000 stored labels with sequence strictly greater
than the cursor (the backfill is capped at 1000 rows by
`get_labels_since(c, 1000)`), in ascending sequence order, and `last_seen`
becomes the sequence of the last backfilled label, staying at the cursor
when nothing was backfilled. -/
theorem C2_backfill_capped (db : DbState) (c : Int) (events : List LiveEvent)
    (hsorted : db.labels.Pairwise (fun a b => a.seq < b.seq)) :
    handleSubscribe db (some c) events =
      ((db.labels.filter (fun r => decide (c < r.seq))).take 1000).map
        (fun r => ⟨r.seq, [r.toLabel]⟩) ++ liveLoop (backfillStart db c) events ∧
    (∀ r ∈ (db.labels.filter (fun r => decide (c < r.seq))).take 1000, c < r.seq) ∧
    (((db.labels.filter (fun r => decide (c < r.seq))).take 1000).map
        (fun r => r.seq)).Pairwise (· < ·) ∧
    ((db.labels.filter (fun r => decide (c < r.seq))).take 1000 = [] →
      backfillStart db c = c) ∧
    (∀ g, ((db.labels.filter (fun r => decide (c < r.seq))).take 1000).getLast? = some g →
      backfillStart db c = g.seq) := by
  obtain ⟨heq, hbs, hbc⟩ := backfillRows_spec db c hsorted
  refine ⟨?_, ?_, ?_, ?_, ?_⟩
  · unfold handleSubscribe backfillMsgs
    dsimp only
    rw [heq]
  · intro r hr
    rw [← heq] at hr
    exact hbc r hr
  · rw [← heq]
    exact List.pairwise_map.mpr hbs
  · intro hnil
    unfold backfillStart
    rw [heq, hnil]
    rfl
  · intro g hg
    unfold backfillStart
    rw [heq, hg]
    rfl

/-- Witness for C2 at a concrete input: cursor 5 over the ten-row log
backfills exactly sequences 6–10 in order, and `last_seen` becomes 10. -/
theorem C2_witness :
    handleSubscribe dbTen (some 5) sampleEvents =
      ((dbTen.labels.filter (fun r => decide ((5 : Int) < r.seq))).take 1000).map
        (fun r => ⟨r.seq, [r.toLabel]⟩) ++ liveLoop (backfillStart dbTen 5) sampleEvents ∧
    backfillStart dbTen 5 = (qRow 10).seq := by
  have h := C2_backfill_capped dbTen 5 sampleEvents (by decide)
  exact ⟨h.1, h.2.2.2.2 (qRow 10) (by decide)⟩



/-- C2 counterexample: with 1001 stored labels beyond cursor 0, the session
never delivers the label with sequence 1001 during backfill (the claim says
every stored label with sequence greater than the cursor is delivered before
any live event; the code caps the backfill read at 1000 rows). -/
theorem C2_counterexample :
    ∃ r ∈ bigDb.labels, (0 : Int) < r.seq ∧
      ∀ m ∈ handleSubscribe bigDb (some 0) [], m.seq ≠ r.seq := by
  have hsorted : bigDb.labels.Pairwise (fun a b => a.seq < b.seq) := by
    unfold bigDb
    dsimp only
    rw [List.pairwise_map]
    refine (List.pairwise_lt_range 1001).imp ?_
    intro i j hij
    unfold bigRow qRow
    dsimp only
    omega
  obtain ⟨heq, hbs, hbc⟩ := backfillRows_spec bigDb 0 hsorted
  have hfilter : bigDb.labels.filter (fun r => decide ((0 : Int) < r.seq)) = bigDb.labels := by
    apply List.filter_eq_self.mpr
    intro r hr
    unfold bigDb at hr
    dsimp only at hr
    rw [List.mem_map] at hr
    obtain ⟨i, hi, hri⟩ := hr
    rw [← hri]
    unfold bigRow qRow
    simp only [decide_eq_true_eq]
    omega
  have hrows : backfillRows bigDb 0 = (List.range 1000).map bigRow := by
    rw [heq, hfilter]
    unfold bigDb
    dsimp only
    rw [← List.map_take, List.take_range]
    norm_num
  refine ⟨bigRow 1000, ?_, ?_, ?_⟩
  · unfold bigDb
    dsimp only
    exact List.mem_map.mpr ⟨1000, List.mem_range.mpr (by omega), rfl⟩
  · unfold bigRow qRow
    dsimp only
    omega
  · intro m hm
    unfold handleSubscribe at hm
    rw [List.mem_append] at hm
    rcases hm with hm | hm
    · unfold backfillMsgs at hm
      rw [List.mem_map] at hm
      obtain ⟨r, hr, hrm⟩ := hm
      rw [hrows, List.mem_map] at hr
      obtain ⟨i, hi, hri⟩ := hr
      rw [List.mem_range] at hi
      rw [← hrm, ← hri]
      unfold bigRow qRow
      dsimp only
      intro hcontra
      omega
    · rw [show liveLoop (backfillStart bigDb 0) [] = [] from rfl] at hm
      cases hm

/-- A fold that maps the whole table at each step equals one map applying the
folded per-row update. -/
lemma foldl_map_comm {α β : Type} (m : β → α → α) :
    ∀ (ds : List β) (fs : List α),
      ds.foldl (fun fs d => fs.map (m d)) fs =
        fs.map (fun f => ds.foldl (fun f d => m d f) f) := by
  intro ds
  induction ds with
  | nil => intro fs; simp
  | cons d rest ih =>
    intro fs
    rw [List.foldl_cons, ih, List.map_map]
    rfl

/-- Marking never changes a flag row's key. -/
lemma markRow_key (batchId now : String) (d : ReviewDecision) (f : FlagRow) :
    (markRow batchId now d f).batchId = f.batchId ∧
    (markRow batchId now d f).uri = f.uri := by
  unfold markRow
  split <;> exact ⟨rfl, rfl⟩

/-- The folded per-row mark keeps the key of the row. -/
lemma foldMark_key (batchId now : String) :
    ∀ (ds : List ReviewDecision) (f : FlagRow),
      (ds.foldl (fun f d => markRow batchId now d f) f).batchId = f.batchId ∧
      (ds.foldl (fun f d => markRow batchId now d f) f).uri = f.uri := by
  intro ds
  induction ds with
  | nil => intro f; exact ⟨rfl, rfl⟩
  | cons d rest ih =>
    intro f
    rw [List.foldl_cons]
    obtain ⟨h1, h2⟩ := ih (markRow batchId now d f)
    obtain ⟨h3, h4⟩ := markRow_key batchId now d f
    exact ⟨h1.trans h3, h2.trans h4⟩

/-- A row whose uri is hit by no decision of the list is left unchanged. -/
lemma foldMark_untouched (batchId now : String) :
    ∀ (ds : List ReviewDecision) (f : FlagRow),
      (∀ d ∈ ds, d.uri ≠ f.uri) →
      ds.foldl (fun f d => markRow batchId now d f) f = f := by
  intro ds
  induction ds with
  | nil => intro f _; rfl
  | cons d rest ih =>
    intro f hnone
    rw [List.foldl_cons]
    have hstep : markRow batchId now d f = f := by
      unfold markRow
      rw [if_neg]
      simp only [Bool.and_eq_true, decide_eq_true_eq, not_and]
      intro _ hu
      exact hnone d (List.mem_cons_self d rest) (hu ▸ rfl)
    rw [hstep]
    exact ih f (fun d2 hd2 => hnone d2 (List.mem_cons_of_mem d hd2))

/-- With no duplicate decision targets, the member row of a listed decision
ends up reviewed with exactly that decision string. -/
lemma foldMark_hit (batchId now : String) :
    ∀ (ds : List ReviewDecision) (f : FlagRow) (d : ReviewDecision),
      (ds.map (fun d => d.uri)).Nodup → d ∈ ds →
      f.batchId = batchId → f.uri = d.uri →
      (ds.foldl (fun f d => markRow batchId now d f) f).reviewed = true ∧
      (ds.foldl (fun f d => markRow batchId now d f) f).decision = some d.decision := by
  intro ds
  induction ds with
  | nil => intro f d _ hd; cases hd
  | cons d0 rest ih =>
    intro f d hnodup hd hfb hfu
    rw [List.foldl_cons]
    rw [List.map_cons, List.nodup_cons] at hnodup
    by_cases hhit : d0.uri = f.uri
    · have hd0 : d = d0 := by
        rcases List.mem_cons.mp hd with h | h
        · exact h
        · exfalso
          apply hnodup.1
          rw [List.mem_map]
          exact ⟨d, h, by rw [hfu] at hhit; rw [← hhit]⟩
      subst hd0
      have hstep : markRow batchId now d f =
          { f with reviewed := true, reviewedAt := some now, decision := some d.decision } := by
        unfold markRow
        rw [if_pos]
        simp [hfb, hfu]
      rw [hstep]
      have huntouched := foldMark_untouched batchId now rest
        { f with reviewed := true, reviewedAt := some now, decision := some d.decision }
        (by
          intro d2 hd2
          simp only
          intro hu
          apply hnodup.1
          rw [List.mem_map]
          exact ⟨d2, hd2, by rw [hu, hfu]⟩)
      rw [huntouched]
      exact ⟨rfl, rfl⟩
    · have hd0 : d ∈ rest := by
        rcases List.mem_cons.mp hd with h | h
        · exfalso; apply hhit; rw [hfu, h]
        · exact h
      have hstep : markRow batchId now d0 f = f := by
        unfold markRow
        rw [if_neg]
        simp only [Bool.and_eq_true, decide_eq_true_eq, not_and]
        intro _ hu
        exact hhit (hu ▸ rfl)
      rw [hstep]
      exact ih f d hnodup.2 hd0 hfb hfu

/-- The reviewed bit after the folded mark: previously reviewed, or hit by
one of the decisions while belonging to this batch. -/
lemma foldMark_reviewed (batchId now : String) :
    ∀ (ds : List ReviewDecision) (f : FlagRow),
      (ds.foldl (fun f d => markRow batchId now d f) f).reviewed =
        (f.reviewed || (decide (f.batchId = batchId) &&
          ds.any (fun d => decide (d.uri = f.uri)))) := by
  intro ds
  induction ds with
  | nil => intro f; simp
  | cons d0 rest ih =>
    intro f
    rw [List.foldl_cons, ih (markRow batchId now d0 f)]
    obtain ⟨hkb, hku⟩ := markRow_key batchId now d0 f
    rw [hkb, hku, List.any_cons]
    unfold markRow
    by_cases hc : (f.batchId = batchId && f.uri = d0.uri) = true
    · rw [if_pos hc]
      simp only [Bool.and_eq_true, decide_eq_true_eq] at hc
      simp [hc.1, hc.2]
    · rw [if_neg hc]
      simp only [Bool.and_eq_true, decide_eq_true_eq, not_and] at hc
      by_cases hb : f.batchId = batchId
      · have hu : ¬ f.uri = d0.uri := fun h => by simpa [h] using hc hb
        have hne : ¬ d0.uri = f.uri := fun h => hu h.symm
        simp [hb, hne]
      · simp [hb]

/-- `store_resolution` touches only the context table. -/
lemma storeResolution_frame (db : DbState) (u : String) (r : ResolutionReason)
    (n : Option String) :
    (storeResolution db u r n).labels = db.labels ∧
    (storeResolution db u r n).flags = db.flags ∧
    (storeResolution db u r n).batches = db.batches ∧
    (storeResolution db u r n).nextSeq = db.nextSeq := by
  unfold storeResolution
  split <;> exact ⟨rfl, rfl, rfl, rfl⟩

/-- After `store_resolution` for a cleared flag, a context row for the target
carries the recorded reason and notes. -/
lemma storeResolution_establishes (db : DbState) (u : String) :
    ∃ r ∈ (storeResolution db u .fingerprintNoise (some "batch review: cleared")).contexts,
      r.uri = u ∧ r.resolutionReason = some "fingerprintnoise" ∧
      r.resolutionNotes = some "batch review: cleared" := by
  unfold storeResolution
  split
  · rename_i hex
    rw [List.any_eq_true] at hex
    obtain ⟨r0, hr0, hru⟩ := hex
    simp only [decide_eq_true_eq] at hru
    refine ⟨{ r0 with resolutionReason := some ResolutionReason.fingerprintNoise.dbString, resolutionNotes := some "batch review: cleared" }, ?_, hru, rfl, rfl⟩
    rw [List.mem_map]
    exact ⟨r0, hr0, by rw [if_pos hru]⟩
  · exact ⟨_, List.mem_append_right _ (List.mem_singleton.mpr rfl), rfl, rfl, rfl⟩

/-- A recorded clear-resolution row survives any later `store_resolution`
issued by the batch loop (later writes carry the same constants). -/
lemma storeResolution_preserves (db : DbState) (u2 x : String)
    (h : ∃ r ∈ db.contexts, r.uri = x ∧ r.resolutionReason = some "fingerprintnoise" ∧
      r.resolutionNotes = some "batch review: cleared") :
    ∃ r ∈ (storeResolution db u2 .fingerprintNoise (some "batch review: cleared")).contexts,
      r.uri = x ∧ r.resolutionReason = some "fingerprintnoise" ∧
      r.resolutionNotes = some "batch review: cleared" := by
  obtain ⟨r, hr, hx, hreason, hnotes⟩ := h
  unfold storeResolution
  split
  · by_cases hru : r.uri = u2
    · refine ⟨{ r with resolutionReason := some ResolutionReason.fingerprintNoise.dbString, resolutionNotes := some "batch review: cleared" }, ?_, hx, rfl, rfl⟩
      rw [List.mem_map]
      exact ⟨r, hr, by rw [if_pos hru]⟩
    · refine ⟨r, ?_, hx, hreason, hnotes⟩
      rw [List.mem_map]
      exact ⟨r, hr, by rw [if_neg hru]⟩
  · exact ⟨r, List.mem_append_left _ hr, hx, hreason, hnotes⟩

/-- A recorded clear-resolution row survives the rest of the decision loop. -/
lemma submitReviewLoop_preserves_cleared (env : ModEnv) (batchId : String)
    (sigOf : List Nat → List Nat)
    (hsign : ∀ l, env.sign l = Except.ok (l.signWith sigOf)) (x : String) :
    ∀ (decisions : List ReviewDecision) (st : ModState),
      (∃ r ∈ st.db.contexts, r.uri = x ∧ r.resolutionReason = some "fingerprintnoise" ∧
        r.resolutionNotes = some "batch review: cleared") →
      ∃ r ∈ (submitReviewLoop env batchId st decisions).1.db.contexts,
        r.uri = x ∧ r.resolutionReason = some "fingerprintnoise" ∧
        r.resolutionNotes = some "batch review: cleared" := by
  intro decisions
  induction decisions with
  | nil => intro st h; exact h
  | cons d rest ih =>
    intro st h
    rw [submitReviewLoop]
    by_cases hd : d.decision = "clear"
    · rw [if_pos hd, hsign]
      dsimp only
      apply ih
      exact storeResolution_preserves _ _ _ h
    · rw [if_neg hd]
      exact ih _ h

/-- Every `clear` decision leaves a context row for its target carrying the
human-resolution reason and notes. -/
lemma submitReviewLoop_cleared_context (env : ModEnv) (batchId : String)
    (sigOf : List Nat → List Nat)
    (hsign : ∀ l, env.sign l = Except.ok (l.signWith sigOf)) :
    ∀ (decisions : List ReviewDecision) (st : ModState),
      ∀ d ∈ decisions, d.decision = "clear" →
        ∃ r ∈ (submitReviewLoop env batchId st decisions).1.db.contexts,
          r.uri = d.uri ∧ r.resolutionReason = some "fingerprintnoise" ∧
          r.resolutionNotes = some "batch review: cleared" := by
  intro decisions
  induction decisions with
  | nil => intro st d hd; cases hd
  | cons d0 rest ih =>
    intro st d hd hclear
    rw [submitReviewLoop]
    rcases List.mem_cons.mp hd with h | h
    · subst h
      rw [if_pos hclear, hsign]
      dsimp only
      apply submitReviewLoop_preserves_cleared env batchId sigOf hsign
      exact storeResolution_establishes _ _
    · by_cases hd0 : d0.decision = "clear"
      · rw [if_pos hd0, hsign]
        dsimp only
        exact ih _ d h hclear
      · rw [if_neg hd0]
        exact ih _ d h hclear

/-- Behaviour of the decision loop when signing always succeeds: it reports
one resolved flag per `clear` decision, appends exactly one signed negating
`copyright-violation` row per `clear` decision (in order) and nothing for
`defer`, `confirm` or unrecognized decisions, updates the flag table exactly
by marking each listed member, and leaves the batch table unchanged. -/
lemma submitReviewLoop_spec (env : ModEnv) (batchId : String)
    (sigOf : List Nat → List Nat)
    (hsign : ∀ l, env.sign l = Except.ok (l.signWith sigOf)) :
    ∀ (decisions : List ReviewDecision) (st : ModState),
      (submitReviewLoop env batchId st decisions).2 =
        Except.ok (decisions.filter (fun d => d.decision = "clear")).length ∧
      (submitReviewLoop env batchId st decisions).1.db.labels.map rowProj =
        st.db.labels.map rowProj ++
          (decisions.filter (fun d => d.decision = "clear")).map
            (fun d => clearRowProj env sigOf d.uri) ∧
      (submitReviewLoop env batchId st decisions).1.db.flags =
        decisions.foldl (fun fs d => fs.map (markRow batchId env.now d)) st.db.flags ∧
      (submitReviewLoop env batchId st decisions).1.db.batches = st.db.batches := by
  intro decisions
  induction decisions with
  | nil =>
    intro st
    refine ⟨rfl, by simp [submitReviewLoop], rfl, rfl⟩
  | cons d rest ih =>
    intro st
    rw [submitReviewLoop]
    by_cases hd : d.decision = "clear"
    · have hfcons : (d :: rest).filter (fun d => decide (d.decision = "clear")) =
          d :: rest.filter (fun d => decide (d.decision = "clear")) := by
        simp [List.filter_cons, hd]
      rw [if_pos hd, hsign]
      dsimp only
      set lbl := (Label.mk_new env.did d.uri "copyright-violation" env.now).negated.signWith sigOf with hlbl
      set db1 := markFlagReviewed st.db batchId d.uri d.decision env.now with hdb1
      set db2 := storeResolution (storeLabel db1 lbl).2 d.uri ResolutionReason.fingerprintNoise (some "batch review: cleared") with hdb2
      set st2 : ModState := { db := db2, broadcasts := if env.hasTx = true then st.broadcasts ++ [((storeLabel db1 lbl).1, lbl)] else st.broadcasts } with hst2
      obtain ⟨ih1, ih2, ih3, ih4⟩ := ih st2
      have hst2db : st2.db = db2 := rfl
      have hlab : db2.labels = st.db.labels ++
          [{ seq := db1.nextSeq, src := lbl.src, uri := lbl.uri, cid := lbl.cid,
             val := lbl.val, neg := lbl.neg.getD false, cts := lbl.cts,
             exp := lbl.exp, sig := lbl.sig.getD [] }] := by
        rw [hdb2]
        exact (storeResolution_frame _ _ _ _).1
      have hfl : db2.flags = st.db.flags.map (markRow batchId env.now d) := by
        rw [hdb2]
        exact ((storeResolution_frame _ _ _ _).2.1).trans rfl
      have hbat : db2.batches = st.db.batches := by
        rw [hdb2]
        exact ((storeResolution_frame _ _ _ _).2.2.1).trans rfl
      refine ⟨?_, ?_, ?_, ?_⟩
      · rw [ih1, hfcons]
        rfl
      · rw [ih2, hst2db, hlab, hfcons, List.map_append, List.map_cons, List.append_assoc]
        rfl
      · rw [ih3, hst2db, hfl, List.foldl_cons]
      · rw [ih4, hst2db, hbat]
    · have hfcons : (d :: rest).filter (fun d => decide (d.decision = "clear")) =
          rest.filter (fun d => decide (d.decision = "clear")) := by
        simp [List.filter_cons, hd]
      rw [if_neg hd]
      obtain ⟨ih1, ih2, ih3, ih4⟩ :=
        ih { st with db := markFlagReviewed st.db batchId d.uri d.decision env.now }
      refine ⟨?_, ?_, ?_, ?_⟩
      · rw [ih1, hfcons]
      · rw [ih2, hfcons]
        rfl
      · rw [ih3, List.foldl_cons]
        rfl
      · exact ih4

/-- `update_batch_status` rewrites the status of the batch the lookup finds
and touches nothing else about the lookup. -/
lemma getBatch_updateBatchStatus (db : DbState) (id s : String) :
    getBatch (updateBatchStatus db id s) id =
      (getBatch db id).map (fun b => { b with status := s }) := by
  unfold getBatch updateBatchStatus
  dsimp only
  rw [List.find?_map]
  have hpred : ((fun b => decide (b.id = id)) ∘
      (fun b => if b.id = id then { b with status := s } else b)) =
      (fun b : BatchRow => decide (b.id = id)) := by
    funext b
    by_cases h : b.id = id <;> simp [h]
  rw [hpred]
  cases hfind : db.batches.find? (fun b => decide (b.id = id)) with
  | none => rfl
  | some b =>
    have hb := List.find?_some hfind
    simp only [decide_eq_true_eq] at hb
    rw [Option.map_some', Option.map_some']
    congr 1
    rw [if_pos hb]

/-- C7: `submit_review` on an existing pending batch, with signing working
and each member listed once: every listed decision marks its member reviewed
with that decision string (unrecognized strings included — they are skipped
with a warning, not fatal); exactly the `clear` decisions append one newly
signed negating (target, copyright-violation) label each and record the
resolution reason and notes in Context, while `defer`, `confirm` and
unrecognized decisions append nothing; the call succeeds reporting one
resolved flag per `clear`; and afterwards the batch is `completed` iff no
unreviewed member remains, staying `pending` otherwise. -/
theorem C7_submit_review_decisions (env : ModEnv) (st : ModState) (batchId : String)
    (decisions : List ReviewDecision) (sigOf : List Nat → List Nat) (batch : BatchRow)
    (hdb : env.hasDb = true) (hsig : env.hasSigner = true)
    (hsign : ∀ l, env.sign l = Except.ok (l.signWith sigOf))
    (hbatch : getBatch st.db batchId = some batch)
    (hpend : batch.status = "pending")
    (hnodup : (decisions.map (fun d => d.uri)).Nodup) :
    (∃ msg, (submitReview env st batchId decisions).1 =
      .ok ((decisions.filter (fun d => d.decision = "clear")).length, msg)) ∧
    (∀ d ∈ decisions, ∀ f ∈ (submitReview env st batchId decisions).2.db.flags,
      f.batchId = batchId → f.uri = d.uri →
      f.reviewed = true ∧ f.decision = some d.decision) ∧
    ((submitReview env st batchId decisions).2.db.labels.map rowProj =
      st.db.labels.map rowProj ++
        (decisions.filter (fun d => d.decision = "clear")).map
          (fun d => clearRowProj env sigOf d.uri)) ∧
    (∀ d ∈ decisions, d.decision = "clear" →
      ∃ r ∈ (submitReview env st batchId decisions).2.db.contexts,
        r.uri = d.uri ∧ r.resolutionReason = some "fingerprintnoise" ∧
        r.resolutionNotes = some "batch review: cleared") ∧
    ((∀ f ∈ st.db.flags, f.batchId = batchId →
        (f.reviewed = true ∨ f.uri ∈ decisions.map (fun d => d.uri))) →
      getBatch (submitReview env st batchId decisions).2.db batchId =
        some { batch with status := "completed" }) ∧
    (¬ (∀ f ∈ st.db.flags, f.batchId = batchId →
        (f.reviewed = true ∨ f.uri ∈ decisions.map (fun d => d.uri))) →
      getBatch (submitReview env st batchId decisions).2.db batchId = some batch ∧
      batch.status = "pending") := by
  obtain ⟨h1, h2, h3, h4⟩ := submitReviewLoop_spec env batchId sigOf hsign decisions st
  have hflags : (submitReviewLoop env batchId st decisions).1.db.flags =
      st.db.flags.map
        (fun f => decisions.foldl (fun f d => markRow batchId env.now d f) f) := by
    rw [h3, foldl_map_comm]
  have hfst : ∃ msg, (submitReview env st batchId decisions).1 =
      .ok ((decisions.filter (fun d => d.decision = "clear")).length, msg) := by
    unfold submitReview
    rw [if_neg (by simp [hdb, hsig]), hbatch]
    dsimp only
    rw [h1]
    exact ⟨_, rfl⟩
  have hsnd : (submitReview env st batchId decisions).2 =
      (if (getBatchPendingUris (submitReviewLoop env batchId st decisions).1.db
            batchId).isEmpty = true then
        { (submitReviewLoop env batchId st decisions).1 with
          db := updateBatchStatus (submitReviewLoop env batchId st decisions).1.db
            batchId "completed" }
      else (submitReviewLoop env batchId st decisions).1) := by
    unfold submitReview
    rw [if_neg (by simp [hdb, hsig]), hbatch]
    dsimp only
    rw [h1]
  have hffl : (submitReview env st batchId decisions).2.db.flags =
      (submitReviewLoop env batchId st decisions).1.db.flags := by
    rw [hsnd]; split <;> rfl
  have hflab : (submitReview env st batchId decisions).2.db.labels =
      (submitReviewLoop env batchId st decisions).1.db.labels := by
    rw [hsnd]; split <;> rfl
  have hfctx : (submitReview env st batchId decisions).2.db.contexts =
      (submitReviewLoop env batchId st decisions).1.db.contexts := by
    rw [hsnd]; split <;> rfl
  have hloopBatch : getBatch (submitReviewLoop env batchId st decisions).1.db batchId =
      some batch := by
    unfold getBatch
    rw [h4]
    exact hbatch
  have hpendIff : ((getBatchPendingUris (submitReviewLoop env batchId st decisions).1.db
        batchId).isEmpty = true) ↔
      (∀ f ∈ st.db.flags, f.batchId = batchId →
        (f.reviewed = true ∨ f.uri ∈ decisions.map (fun d => d.uri))) := by
    unfold getBatchPendingUris
    rw [hflags]
    simp only [List.isEmpty_iff, List.map_eq_nil_iff, List.filter_eq_nil_iff,
      List.mem_map, Bool.and_eq_true, Bool.not_eq_true', decide_eq_true_eq,
      not_and, forall_exists_index, and_imp]
    constructor
    · intro h f hf hfb
      have hk := foldMark_key batchId env.now decisions f
      have hrev := foldMark_reviewed batchId env.now decisions f
      have hne := h _ f hf rfl (hk.1.trans hfb)
      rw [hrev] at hne
      rcases Bool.eq_false_or_eq_true f.reviewed with hfr | hfr
      · exact Or.inl hfr
      · right
        rw [hfr, hfb] at hne
        rcases Bool.eq_false_or_eq_true
            (false || decide (batchId = batchId) &&
              decisions.any (fun d => decide (d.uri = f.uri))) with hx | hx
        · simp only [Bool.false_or, Bool.and_eq_true, decide_eq_true_eq] at hx
          obtain ⟨-, hany⟩ := hx
          rw [List.any_eq_true] at hany
          obtain ⟨d, hd, hdu⟩ := hany
          simp only [decide_eq_true_eq] at hdu
          exact ⟨d, hd, hdu⟩
        · exact absurd hx hne
    · intro h f0 f hf heq hfb
      have hk := foldMark_key batchId env.now decisions f
      have hrev := foldMark_reviewed batchId env.now decisions f
      subst heq
      have hfb0 : f.batchId = batchId := hk.1.symm.trans hfb
      rcases h f hf hfb0 with hr | hr
      · rw [hrev, hr]
        simp
      · rw [hrev]
        obtain ⟨d, hd, hdu⟩ := hr
        have hany : decisions.any (fun d => decide (d.uri = f.uri)) = true := by
          rw [List.any_eq_true]
          exact ⟨d, hd, by simp [hdu]⟩
        rw [hfb0, hany]
        simp
  refine ⟨hfst, ?_, ?_, ?_, ?_, ?_⟩
  · intro d hd f hf hfb hfu
    rw [hffl, hflags] at hf
    rw [List.mem_map] at hf
    obtain ⟨f0, hf0, heq⟩ := hf
    have hk := foldMark_key batchId env.now decisions f0
    subst heq
    exact foldMark_hit batchId env.now decisions f0 d hnodup hd
      (hk.1.symm.trans hfb) (hk.2.symm.trans hfu)
  · rw [hflab]
    exact h2
  · intro d hd hclear
    rw [hfctx]
    exact submitReviewLoop_cleared_context env batchId sigOf hsign decisions st d hd hclear
  · intro hall
    rw [hsnd, if_pos (hpendIff.mpr hall)]
    dsimp only
    rw [getBatch_updateBatchStatus, hloopBatch]
    rfl
  · intro hnall
    rw [hsnd, if_neg (fun hemp => hnall (hpendIff.mp hemp))]
    exact ⟨hloopBatch, hpend⟩





/-- Witness for C7 at a concrete input: clearing A and giving B an unknown
decision string succeeds with one resolved flag, and the batch completes
because both members are now reviewed. -/
theorem C7_witness :
    (∃ msg, (submitReview c7Env c7St "b1" c7Decs).1 =
      .ok ((c7Decs.filter (fun d => d.decision = "clear")).length, msg)) ∧
    getBatch (submitReview c7Env c7St "b1" c7Decs).2.db "b1" =
      some { c7Batch with status := "completed" } := by
  have h := C7_submit_review_decisions c7Env c7St "b1" c7Decs (fun _ => [3]) c7Batch
    rfl rfl (fun l => rfl) (by decide) rfl (by decide)
  exact ⟨h.1, h.2.2.2.2.1 (by decide)⟩

end PlyrModeration
